import Mathlib

/-!
Verification of the CFHT dual-camera acquisition servers
(`zwocamServ.c`, `taucamLocal.cc`, and the unnamed Tau camera server
source `part_003`, called `taucamServ` below) against their
natural-language specification.

The development shallow-embeds the claim-relevant C code:

* pure helpers (`stristr`, `trim`, `medianCalculation`, the bias
  correction loop, the chunked send hook) become Lean functions on
  `List`/`ℕ`/`ℤ`/`ℚ`;
* the mutable server/client structs become Lean structures, and each
  handler becomes a state-transition function returning the new state,
  the response written into the client buffer (modelled as the literal
  `sprintf` result string), and the list of Status-Server registry
  writes performed;
* `double` arithmetic is modelled over `ℚ` (exact real-number semantics
  of the source expressions; IEEE rounding noise is out of scope);
* the frame-delivery callback thread is modelled by explicitly invoking
  the callback function on a stream of frames, and the busy-wait loop in
  `takeImage` by an explicit list of (clock, frame-count) observations
  supplied by the environment.

Loops that are not structurally recursive in the source are embedded
with an explicit fuel argument so that every definition is executable
and reduces in the kernel; the theorems prove that the fuel used by the
embedding suffices.
-/

/-! ### Character/string utilities shared by both servers -/

/-- C `isspace` on the ASCII characters the servers can receive. -/
def isSpaceC (c : Char) : Bool :=
  c = ' ' ∨ c = '\t' ∨ c = '\n' ∨ c = '\x0b' ∨ c = '\x0c' ∨ c = '\r'

/-- `ltrim` from `taucamLocal.cc` / `taucamServ`: advance past leading
whitespace. -/
def ltrim (s : List Char) : List Char := s.dropWhile isSpaceC

/-- `rtrim` from `taucamLocal.cc` / `taucamServ`: truncate trailing
whitespace. -/
def rtrim (s : List Char) : List Char := (s.reverse.dropWhile isSpaceC).reverse

/-- `trim` from the Tau sources: `rtrim (ltrim s)`. -/
def trimC (s : List Char) : List Char := rtrim (ltrim s)

/-- `strcasecmp s t == 0`: case-insensitive string equality (ASCII). -/
def caseEq (s t : List Char) : Bool := s.map Char.toUpper == t.map Char.toUpper

/-- Case-insensitive "pattern is a prefix here" check, the inner
comparison loop of `stristr` in `zwocamServ.c`. -/
def ciStarts : List Char → List Char → Bool
  | _, [] => true
  | [], _ :: _ => false
  | c :: s, d :: p => (c.toUpper == d.toUpper) && ciStarts s p

/-- `stristr` from `zwocamServ.c` as a Boolean: scan every start
position of `s` for a case-insensitive occurrence of `p` (the C loop
peels one start position per iteration; its first inner `while` merely
fast-forwards over positions whose first character already mismatches,
so the scan below is behaviourally identical for the non-empty pattern
`"IMAGE"` it is used with). -/
def ciFind : List Char → List Char → Bool
  | [], p => p.isEmpty
  | c :: s, p => ciStarts (c :: s) p || ciFind s p

/-- Exact (case-sensitive) substring occurrence check, used to state
that a response string does or does not contain a given value. -/
def containsSeq : List Char → List Char → Bool
  | [], p => p.isEmpty
  | c :: s, p => p.isPrefixOf (c :: s) || containsSeq s p

/-! ### Response formatting

The servers build every response with `sprintf`; responses are modelled
as the literal result strings.  `%.3f` on the non-negative values
involved rounds to the nearest multiple of 1/1000. -/

/-- Zero-pad a numeral to three digits (the fractional part of
`%.3f`). -/
def pad3 (n : ℕ) : String :=
  if n < 10 then "00" ++ toString n
  else if n < 100 then "0" ++ toString n
  else toString n

/-- `sprintf "%.3f"` on a non-negative rational. -/
def fmt3Str (q : ℚ) : String :=
  let m : ℤ := round (1000 * q)
  toString (m / 1000) ++ "." ++ pad3 (m % 1000).toNat

/-- A Status-Server registry write (`ssPutPrintf` / `ssPutString`). -/
inductive RegWrite
  | rnum (path : String) (value : ℚ)
  | rint (path : String) (value : ℤ)
  | rstr (path : String) (value : String)
  deriving DecidableEq, Repr

/-! ### Per-client state and the binary streaming hook

`client_info_t` in both `zwocamServ.c` and `taucamServ`.  The fields
not used by any claim (`remote_ip`, `connect_ts`, and the ZWO
`width`/`height` copies) are omitted.  Heap buffers owned by the client
(`hostname`, `image_data`) are modelled as `Option`s, `none` meaning
NULL / freed. -/
structure ClientInfo where
  hostname : Option String
  send_data : Bool
  data_count : ℕ
  total_count : ℕ
  image_data : Option (List ℕ)
  deriving DecidableEq, Repr

/-- `SEND_BUF_SIZE`, the chunk bound of the binary send hook. -/
def SEND_BUF_SIZE : ℕ := 5000

/-- `client_send_binary` (identical in `zwocamServ.c:987` and
`taucamServ:1152`).  The hook's output is `none` when the client has no
data armed (the C code leaves `*len` untouched), and otherwise
`some (len, bytes)` where `len` is the value stored into `*len` and
`bytes` the bytes `memcpy`ed into the outgoing buffer. -/
def client_send_binary (c : ClientInfo) : ClientInfo × Option (ℕ × List ℕ) :=
  if c.send_data then
    if c.data_count = c.total_count then
      ({ c with send_data := false, data_count := 0, image_data := none },
       some (0, []))
    else
      let send_count := min (c.total_count - c.data_count) SEND_BUF_SIZE
      let chunk := ((c.image_data.getD []).drop c.data_count).take send_count
      ({ c with data_count := c.data_count + send_count },
       some (send_count, chunk))
  else (c, none)

/-- The event loop repeatedly invoking the send hook while the
connection is writable; it collects every reported chunk and stops once
the hook reports nothing, also returning the final client state. -/
def runStream : ℕ → ClientInfo → List (ℕ × List ℕ) × ClientInfo
  | 0, c => ([], c)
  | fuel + 1, c =>
    match client_send_binary c with
    | (c', none) => ([], c')
    | (c', some out) =>
      let r := runStream fuel c'
      (out :: r.1, r.2)

/-- Tail of `takeImage` after the FITS file has been produced
(`zwocamServ.c:845`–`883`, `taucamServ:833`–`869`): the file's bytes
are copied into a client-owned buffer, the streaming flags are armed
(`send_data=1`, `data_count=0`, `total_count=st_size`), and the pass
response declaring the byte count is written. -/
def armClient (c : ClientInfo) (fileBytes : List ℕ) : ClientInfo × String :=
  ({ c with send_data := true, data_count := 0,
            total_count := fileBytes.length, image_data := some fileBytes },
   ". " ++ toString fileBytes.length)

/-- `client_del` from `zwocamServ.c:950`: only the hostname string is
freed; a pending image buffer is not released. -/
def zwo_client_del (c : ClientInfo) : ClientInfo :=
  { c with hostname := none }

/-- `client_del` from `taucamServ:923`: both the hostname string and
any pending image buffer are freed. -/
def tau_client_del (c : ClientInfo) : ClientInfo :=
  { c with hostname := none, image_data := none }

/-! ### C1 — chunked binary delivery -/

/-- The minimum scan: `min_val = 65535; for i: if stack[i] < min_val
then min_val = stack[i]`. -/
def stackMin (stack : List ℤ) : ℤ :=
  stack.foldl (fun m x => if x < m then x else m) 65535

/-- The output-assembly loop of the bias-correction step:
`image[i] = stack[i] - min_val`, clamped at 65535. -/
def biasCorrect (stack : List ℤ) : List ℤ :=
  let min_val := stackMin stack
  stack.map (fun x => if 65535 < x - min_val then 65535 else x - min_val)

/-! ### ZWO server session state and command handlers

`server_info_t` from `zwocamServ.c`; only the claim-relevant session
fields are kept (the camera handle, socket bookkeeping and timing
fields are not touched by any claim). -/

structure ZwoState where
  etime : ℚ
  gain : ℤ
  deriving DecidableEq, Repr

/-- `MIN_GAIN` of `zwocamServ.c`. -/
def MIN_GAIN : ℤ := 0

/-- `MAX_GAIN` of `zwocamServ.c`. -/
def MAX_GAIN : ℤ := 510

/-- Registry path `SS_ETIME` of `zwocamServ.c`. -/
def SS_ETIME_VIS : String := "/i/dualcam/visible/etime"

/-- Registry path `SS_GAIN` of `zwocamServ.c`. -/
def SS_GAIN_VIS : String := "/i/dualcam/visible/gain"

/-- Registry path `SS_ETIME` of `taucamServ`. -/
def SS_ETIME_IR : String := "/i/dualcam/IR/etime"

/-- Registry path `SS_GAIN` of `taucamServ`. -/
def SS_GAIN_IR : String := "/i/dualcam/IR/gain"

/-- `tgt_min` in `com_etime`. -/
def tgt_min : ℚ := 1 / 1000

/-- `tgt_max` in `com_etime`. -/
def tgt_max : ℚ := 600

/-- `tgt_stp` in `com_etime`. -/
def tgt_stp : ℚ := 1 / 1000

/-- C cast `(int)` on a `double`: truncation toward zero. -/
def ctrunc (q : ℚ) : ℤ := if q < 0 then -⌊-q⌋ else ⌊q⌋

/-- The quantisation step of `com_etime` (`zwocamServ.c:493`–`494`):
`new_etime += tgt_stp/2; new_etime = (int)(new_etime/tgt_stp)*tgt_stp`. -/
def zwoQuant (v : ℚ) : ℚ := (ctrunc ((v + tgt_stp / 2) / tgt_stp) : ℚ) * tgt_stp

/-- The clamping step of `com_etime` (`zwocamServ.c:495`–`496`). -/
def zwoClamp (q : ℚ) : ℚ :=
  let q1 := if tgt_max < q then tgt_max else q
  if q1 < tgt_min then tgt_min else q1

/-- `com_etime` from `zwocamServ.c:469`–`518`.  The argument `v` is the
numeric value parsed from the command line by `cli_arg1`/`atof` (for the
`minutes:seconds` form, `v = 60*minutes + seconds`); string parsing is a
boundary concern.  The `ssPutPrintf "%.4f"` registry write is modelled
as a write of the exact rational (the session value is always a
multiple of 1/1000, which `%.4f` represents exactly). -/
def com_etime (st : ZwoState) (v : ℚ) : ZwoState × String × List RegWrite :=
  let st' :=
    if v ≠ 0 then
      let q := zwoClamp (zwoQuant v)
      if 1 / 10000 < |st.etime - q| then { st with etime := q } else st
    else st
  (st', ". etime " ++ fmt3Str st'.etime, [RegWrite.rnum SS_ETIME_VIS st'.etime])

/-- `com_gain` from `zwocamServ.c:524`–`563`.  The argument `g` is the
`atoi` result for the command argument. -/
def com_gain (st : ZwoState) (g : ℤ) : ZwoState × String × List RegWrite :=
  if g < MIN_GAIN ∨ MAX_GAIN < g then
    (st, "! gain \"invalid value\"", [])
  else
    let st' := { st with gain := g }
    (st', ". gain " ++ toString g, [RegWrite.rint SS_GAIN_VIS g])

/-! ### Tau server session state and command handlers -/

/-- `gain_t` from the Tau sources. -/
inductive TauGain
  | auto | high | low | manual
  deriving DecidableEq, Repr

/-- The string `applyGain` writes to the registry for each gain mode. -/
def gainModeStr : TauGain → String
  | .auto => "AUTO"
  | .high => "HIGH"
  | .low => "LOW"
  | .manual => "MANUAL"

/-- `server_info_t` from `taucamServ` / `taucamLocal.cc`
(claim-relevant fields). -/
structure TauServState where
  gain : TauGain
  etime : ℚ
  width : ℕ
  height : ℕ
  stack_data : Option (List ℤ)
  frame_count : ℕ
  exp_start_ts : ℚ
  deriving DecidableEq, Repr

/-- `MIN_ETIME` of the Tau sources. -/
def MIN_ETIME : ℚ := 1 / 10

/-- `MAX_ETIME` of the Tau sources. -/
def MAX_ETIME : ℚ := 600

/-- `EXPOSE_TIMEOUT` of the Tau sources (seconds beyond the exposure
start to wait for a first frame). -/
def EXPOSE_TIMEOUT_TAU : ℚ := 5

/-- The `ETIME` branch of `client_recv` in `taucamServ:1033`–`1091`,
after `strtod` has successfully parsed the single argument into `v`
(parse failures and wrong argument counts are rejected earlier without
touching any state).  On a valid value the handler sets the session
exposure time, resets the frame counter and the exposure-start
timestamp, frees the requesting client's pending image buffer, persists
the value (`ssPutPrintf "%.3f"`), and replies `". ETIME"`. -/
def tau_com_etime (st : TauServState) (c : ClientInfo) (v : ℚ) :
    TauServState × ClientInfo × String × List RegWrite :=
  if v < MIN_ETIME ∨ MAX_ETIME < v then
    (st, c, "! ETIME \"Invalid exposure time specified\"", [])
  else
    let st' := { st with etime := v, frame_count := 0, exp_start_ts := 0 }
    let c' := { c with image_data := none }
    (st', c', ". ETIME", [RegWrite.rnum SS_ETIME_IR v])

/-- The `GAIN` branch of `client_recv` in `taucamServ:1096`–`1137` with
the single argument `arg` (`cargv[0]`); comparisons use `strcasecmp`.
On a valid mode the handler stores the mode, `applyGain` pushes it to
the device and persists the mode string to the registry, and the reply
is `". GAIN"`. -/
def tau_com_gain (st : TauServState) (arg : List Char) :
    TauServState × String × List RegWrite :=
  if caseEq arg "AUTO".toList then
    ({ st with gain := .auto }, ". GAIN", [RegWrite.rstr SS_GAIN_IR "AUTO"])
  else if caseEq arg "HIGH".toList then
    ({ st with gain := .high }, ". GAIN", [RegWrite.rstr SS_GAIN_IR "HIGH"])
  else if caseEq arg "LOW".toList then
    ({ st with gain := .low }, ". GAIN", [RegWrite.rstr SS_GAIN_IR "LOW"])
  else if caseEq arg "MANUAL".toList then
    ({ st with gain := .manual }, ". GAIN", [RegWrite.rstr SS_GAIN_IR "MANUAL"])
  else
    (st, "! GAIN \"Invalid gain argument specified\"", [])

/-! ### Command routing -/

/-- Routing outcome of the ZWO `client_recv` (`zwocamServ.c:959`). -/
inductive ZwoAction
  | takeImg
  | cliExec
  deriving DecidableEq, Repr

/-- `client_recv` from `zwocamServ.c:959`–`982`: a case-insensitive
`stristr` scan for `"IMAGE"` over the whole input line runs before the
generic `cli_execute` dispatch; any hit routes to `takeImage`. -/
def zwo_client_recv (buffer : List Char) : ZwoAction :=
  if ciFind buffer "IMAGE".toList then .takeImg else .cliExec

/-- Routing outcome of the Tau `client_recv` (`taucamServ:944`). -/
inductive TauAction
  | disconnect
  | takeImg
  | etimeNoArg
  | gainNoArg
  | etimeArgs (rest : List Char)
  | gainArgs (rest : List Char)
  | syntaxErr
  deriving DecidableEq, Repr

/-- `client_recv` from `taucamServ:944`–`1146`: the line is trimmed and
split at its first space; without arguments the verb is compared with
`strcasecmp` against the disconnect keywords, then `IMAGE`, then
`ETIME`/`GAIN` (missing-argument errors); with arguments only `ETIME`
and `GAIN` are recognised.  `IMAGE` is matched only as the entire
trimmed, argument-free line. -/
def tau_client_recv (buffer : List Char) : TauAction :=
  let t := trimC buffer
  if ' ' ∈ t then
    let cmd := t.takeWhile (fun c => c ≠ ' ')
    let rest := (t.dropWhile (fun c => c ≠ ' ')).drop 1
    if caseEq cmd "ETIME".toList then .etimeArgs rest
    else if caseEq cmd "GAIN".toList then .gainArgs rest
    else .syntaxErr
  else
    if caseEq t "QUIT".toList ∨ caseEq t "BYE".toList ∨
        caseEq t "EXIT".toList ∨ caseEq t "LOGOUT".toList then .disconnect
    else if caseEq t "IMAGE".toList then .takeImg
    else if caseEq t "ETIME".toList then .etimeNoArg
    else if caseEq t "GAIN".toList then .gainNoArg
    else .syntaxErr

/-! ### The exposure wait loop of the Tau `takeImage` -/

/-- Outcome of the busy-wait loop in `takeImage`
(`taucamServ:777`–`794`). -/
inductive WaitOutcome
  | timedOut
  | ready
  | starved
  deriving DecidableEq, Repr

/-- The busy-wait loop of `takeImage`: each iteration sleeps, then
checks `frame_count == 0 && exp_start_ts + EXPOSE_TIMEOUT < now` (abort
with a timeout), then repeats while `now < stop_ts || frame_count == 0`.
The environment (wall clock plus the callback thread's counter) is
modelled as one `(now, frame_count)` observation per iteration;
`starved` means the supplied observation list ended before the loop
exited and cannot arise from the real unbounded loop. -/
def waitLoop (start stop : ℚ) : List (ℚ × ℕ) → WaitOutcome
  | [] => .starved
  | (now, fc) :: rest =>
    if fc = 0 ∧ start + EXPOSE_TIMEOUT_TAU < now then .timedOut
    else if now < stop ∨ fc = 0 then waitLoop start stop rest
    else .ready

/-- Result of the modelled `takeImage` front end. -/
inductive TakeImgRes
  | earlyFail (resp : String)
  | timeoutFail (resp : String)
  | proceeding
  | starved
  deriving DecidableEq, Repr

/-- Front end of `takeImage` from `taucamServ:729`–`794` (identical
logic in `taucamLocal.cc:698`–`772`): validate the configured exposure
time, then under the mutex reset `frame_count`, zero the accumulator
and set `exp_start_ts := t0` (the `getClockTime()` reading), compute
`stop_ts = t0 + etime`, and busy-wait.  On timeout the fail response is
written and the function returns — note `exp_start_ts` is NOT reset on
this path.  (`proceeding` abstracts the subsequent FITS encoding and
streaming part, which claims C1/C5 cover.) -/
def tau_takeImage_wait (st : TauServState) (t0 : ℚ) (obs : List (ℚ × ℕ)) :
    TauServState × TakeImgRes :=
  if st.etime < MIN_ETIME ∨ MAX_ETIME < st.etime then
    (st, .earlyFail "! IMAGE \"Exposure time isn't set\"")
  else
    let st1 : TauServState :=
      { st with
        frame_count := 0
        stack_data := some (List.replicate (st.width * st.height) 0)
        exp_start_ts := t0 }
    match waitLoop t0 (t0 + st.etime) obs with
    | .timedOut => (st1, .timeoutFail "! IMAGE \"Exposure timeout\"")
    | .ready => (st1, .proceeding)
    | .starved => (st1, .starved)

/-- `ELEM_SWAP(arr[i], arr[j])`. -/
def lswap (l : List ℕ) (i j : ℕ) : List ℕ :=
  (l.set i (l.getD j 0)).set j (l.getD i 0)

/-- `do ll++; while (arr[low] > arr[ll])` — returns the final `ll`.
`j` is the candidate after the initial increment. -/
def scanUp (l : List ℕ) (p : ℕ) : ℕ → ℕ → ℕ
  | 0, j => j
  | fuel + 1, j =>
    if j < l.length ∧ l.getD j 0 < l.getD p 0 then scanUp l p fuel (j + 1) else j

/-- `do hh--; while (arr[hh] > arr[low])` — returns the final `hh`.
`j` is the candidate after the initial decrement. -/
def scanDown (l : List ℕ) (p : ℕ) : ℕ → ℕ → ℕ
  | 0, j => j
  | fuel + 1, j =>
    if 0 < j ∧ l.getD p 0 < l.getD j 0 then scanDown l p fuel (j - 1) else j

/-- The inner `for (;;)` partition loop: nibble from each end, swapping
stuck items, until the scans cross; returns the list and the crossed
`(ll, hh)`. -/
def partLoop : ℕ → List ℕ → ℕ → ℕ → ℕ → Option (List ℕ × ℕ × ℕ)
  | 0, _, _, _, _ => none
  | fuel + 1, l, low, ll, hh =>
    let ll1 := scanUp l low l.length (ll + 1)
    let hh1 := scanDown l low l.length (hh - 1)
    if hh1 < ll1 then some (l, ll1, hh1)
    else partLoop fuel (lswap l ll1 hh1) low ll1 hh1

/-- One conditional exchange `if (arr[j] < arr[i] /* i.e. arr[i] > arr[j] */)
ELEM_SWAP(arr[i], arr[j])`: afterwards `arr[i] ≤ arr[j]`. -/
def orderSwap (l : List ℕ) (i j : ℕ) : List ℕ :=
  if l.getD j 0 < l.getD i 0 then lswap l i j else l

/-- The median-of-three pivot setup of `medianCalculation`: order
middle/high, low/high, middle/low (leaving the median of the three at
`low`), then stash the item now at `middle` into `low + 1`. -/
def med3Setup (l : List ℕ) (low high : ℕ) : List ℕ :=
  let middle := (low + high) / 2
  let a3 := orderSwap (orderSwap (orderSwap l middle high) low high) middle low
  lswap a3 middle (low + 1)

/-- The outer selection loop of `medianCalculation`: median-of-three
pivot setup, partition, then shrink the active window towards the fixed
`median` index. -/
def mSelect : ℕ → List ℕ → ℕ → ℕ → ℕ → Option (ℕ × List ℕ)
  | 0, _, _, _, _ => none
  | fuel + 1, l, low, high, median =>
    if high ≤ low then some (l.getD median 0, l)
    else if high = low + 1 then
      let l' := if l.getD high 0 < l.getD low 0 then lswap l low high else l
      some (l'.getD median 0, l')
    else
      let a4 := med3Setup l low high
      match partLoop a4.length a4 low (low + 1) high with
      | none => none
      | some (a5, _ll, hh) =>
        let a6 := lswap a5 low hh
        let low' := if hh ≤ median then _ll else low
        let high' := if median ≤ hh then hh - 1 else high
        mSelect fuel a6 low' high' median

/-- `medianCalculation(arr, n, 1)` with `n = length`: `low = 0`,
`high = n - 1`, `median = (low + high) / 2`; returns the selected value
and the permuted array.  The fuel `n + 1` is shown sufficient by the
correctness theorem. -/
def medianCalculation (l : List ℕ) : ℕ × List ℕ :=
  (mSelect (l.length + 1) l 0 (l.length - 1) ((l.length - 1) / 2)).getD (0, l)

/-- The median value alone, as used by the frame callbacks (which pass
a disposable copy of the frame, so only the returned value matters). -/
def medianVal (frame : List ℕ) : ℕ := (medianCalculation frame).1

/-! ### The frame-arrival callbacks -/

/-- `callbackTauImage` from `taucamServ:420`–`488`: lazily allocate the
accumulator from the first frame's dimensions, drop frames whose
dimensions disagree, reset the window if no exposure is active, compute
the median of a disposable copy of the frame — and then, because the
accumulation line is commented out in this source, OVERWRITE the
accumulator with the raw frame (`stack_data[i] = bitmap.data[i]`),
discarding the median, and increment the frame count. -/
def callbackTauImage_serv (st : TauServState) (fw fh : ℕ) (frame : List ℕ) :
    TauServState :=
  let st1 :=
    if st.stack_data = none then
      { st with
        frame_count := 0
        width := fw
        height := fh
        stack_data := some (List.replicate (fw * fh) 0) }
    else st
  if fw ≠ st1.width ∨ fh ≠ st1.height then st1
  else
    let st2 :=
      if st1.exp_start_ts = 0 then
        { st1 with
          frame_count := 0
          stack_data := some (List.replicate (st1.width * st1.height) 0) }
      else st1
    let _median := medianVal frame
    { st2 with
      stack_data := some (frame.map (fun pix => (pix : ℤ)))
      frame_count := st2.frame_count + 1 }

/-- `callbackTauImage` from `taucamLocal.cc:384`–`451`: identical
prologue, but the accumulation line is live — every pixel of the frame,
minus the frame's median (computed on a disposable copy), is added into
the accumulator, and the frame count is incremented. -/
def callbackTauImage_local (st : TauServState) (fw fh : ℕ) (frame : List ℕ) :
    TauServState :=
  let st1 :=
    if st.stack_data = none then
      { st with
        frame_count := 0
        width := fw
        height := fh
        stack_data := some (List.replicate (fw * fh) 0) }
    else st
  if fw ≠ st1.width ∨ fh ≠ st1.height then st1
  else
    let st2 :=
      if st1.exp_start_ts = 0 then
        { st1 with
          frame_count := 0
          stack_data := some (List.replicate (st1.width * st1.height) 0) }
      else st1
    let median := medianVal frame
    { st2 with
      stack_data := some (List.zipWith
        (fun s pix => s + ((pix : ℤ) - (median : ℤ)))
        (st2.stack_data.getD []) frame)
      frame_count := st2.frame_count + 1 }

/-! ### C2 — what the callback does with a frame -/

/-- Everything strictly before `low` is already ≤ everything from `low`
on: the prefix is finalised. -/
def prefLE (l : List ℕ) (low : ℕ) : Prop :=
  ∀ i j, i < low → low ≤ j → j < l.length → l.getD i 0 ≤ l.getD j 0

/-- Everything up to `high` is ≤ everything strictly after `high`: the
suffix is finalised. -/
def sufGE (l : List ℕ) (high : ℕ) : Prop :=
  ∀ i j, i ≤ high → high < j → j < l.length → l.getD i 0 ≤ l.getD j 0

/-! ## Theorems -/

/-- The send hook does nothing on a client with no armed stream. -/
theorem send_binary_idle (c : ClientInfo) (h : c.send_data = false) :
    client_send_binary c = (c, none) := by
  simp [client_send_binary, h]

/-- The event loop collects nothing from a disarmed client. -/
theorem runStream_idle (fuel : ℕ) (c : ClientInfo) (h : c.send_data = false) :
    runStream fuel c = ([], c) := by
  cases fuel with
  | zero => rfl
  | succ n => simp [runStream, send_binary_idle c h]

/-- Invariant lemma for a single armed step of the send hook: the
cursor never decreases and never passes `total_count`. -/
theorem send_binary_cursor_step (c : ClientInfo)
    (harm : c.send_data = true) (hlt : c.data_count < c.total_count) :
    c.data_count ≤ (client_send_binary c).1.data_count ∧
      (client_send_binary c).1.data_count ≤ c.total_count := by
  have h1 : min (c.total_count - c.data_count) SEND_BUF_SIZE ≤
      c.total_count - c.data_count := Nat.min_le_left _ _
  simp only [client_send_binary, harm, if_true]
  rw [if_neg (Nat.ne_of_lt hlt)]
  constructor
  · simp
  · simp only []
    omega

/-- Core induction for the streaming loop: from an armed state with
cursor `d` and a backing buffer of length `total_count`, the hook
delivers the remaining bytes in order in positive chunks of at most
`SEND_BUF_SIZE`, then one zero-length end-of-stream chunk, and the
final state has the stream disarmed and the buffer released. -/
theorem runStream_spec (fuel : ℕ) :
    ∀ (buf : List ℕ) (c : ClientInfo),
    c.send_data = true → c.image_data = some buf →
    c.total_count = buf.length → c.data_count ≤ buf.length →
    buf.length - c.data_count + 2 ≤ fuel →
    ∃ ds,
      (runStream fuel c).1 = ds ++ [(0, [])] ∧
      (∀ p ∈ ds, 0 < p.1 ∧ p.1 ≤ SEND_BUF_SIZE ∧ p.2.length = p.1) ∧
      (ds.map Prod.snd).flatten = buf.drop c.data_count ∧
      (runStream fuel c).2.send_data = false ∧
      (runStream fuel c).2.image_data = none := by
  induction fuel with
  | zero => intro buf c _ _ _ _ hf; omega
  | succ fuel ih =>
    intro buf c harm hbuf htot hd hf
    by_cases hend : c.data_count = c.total_count
    · have hstep : client_send_binary c =
          ({ c with send_data := false, data_count := 0, image_data := none },
            some (0, [])) := by
        simp [client_send_binary, harm, hend]
      have hidle := runStream_idle fuel
        { c with send_data := false, data_count := 0, image_data := none } rfl
      have hrun : runStream (fuel + 1) c =
          ([(0, [])],
            { c with send_data := false, data_count := 0, image_data := none }) := by
        simp [runStream, hstep, hidle]
      refine ⟨[], ?_, by simp, ?_, ?_, ?_⟩
      · rw [hrun]; rfl
      · simp only [List.map_nil, List.flatten_nil]
        have : c.data_count = buf.length := hend.trans htot
        rw [this, List.drop_length]
      · rw [hrun]
      · rw [hrun]
    · -- a data chunk is emitted
      have hdlt : c.data_count < buf.length := by omega
      have hrem : 0 < c.total_count - c.data_count := by omega
      set sc := min (c.total_count - c.data_count) SEND_BUF_SIZE with hsc
      have hscpos : 0 < sc := by
        simp only [hsc]
        exact lt_min hrem (by norm_num [SEND_BUF_SIZE])
      have hscle : sc ≤ c.total_count - c.data_count := Nat.min_le_left _ _
      set c' : ClientInfo := { c with data_count := c.data_count + sc } with hc'
      have hstep : client_send_binary c =
          (c', some (sc, (buf.drop c.data_count).take sc)) := by
        simp [client_send_binary, harm, hend, hbuf, hc', hsc]
      have hrun : runStream (fuel + 1) c =
          ((sc, (buf.drop c.data_count).take sc) :: (runStream fuel c').1,
            (runStream fuel c').2) := by
        simp [runStream, hstep]
      obtain ⟨ds, h1, h2, h3, h4, h5⟩ :=
        ih buf c' harm hbuf htot (by simp [hc']; omega) (by simp [hc']; omega)
      refine ⟨(sc, (buf.drop c.data_count).take sc) :: ds, ?_, ?_, ?_, ?_, ?_⟩
      · rw [hrun]; simp [h1]
      · intro p hp
        rcases List.mem_cons.1 hp with h | h
        · subst h
          refine ⟨hscpos, Nat.min_le_right _ _, ?_⟩
          simp only [List.length_take, List.length_drop]
          omega
        · exact h2 p h
      · simp only [List.map_cons, List.flatten_cons, h3, hc']
        have : (buf.drop c.data_count).take sc ++ buf.drop (c.data_count + sc) =
            buf.drop c.data_count := by
          rw [← List.drop_drop]
          exact List.take_append_drop sc (buf.drop c.data_count)
        exact this
      · rw [hrun]; exact h4
      · rw [hrun]; exact h5

/-- C1: for a successful `image` exchange whose pass response declares
byte length `L` (the length of the encoded FITS byte buffer handed to
`armClient`), the send-binary hook delivers chunks of length at most
`SEND_BUF_SIZE = 5000` whose contents are exactly the buffer in order
(hence the lengths sum to `L` and no byte is delivered twice), after the
last data chunk reports exactly one zero-length end-of-stream chunk,
and leaves the stream disarmed with the owned buffer released; moreover
every armed step keeps the send cursor non-decreasing and never above
the total length. -/
theorem C1_stream_delivery (c0 : ClientInfo) (buf : List ℕ) (fuel : ℕ)
    (hfuel : buf.length + 2 ≤ fuel) :
    ((armClient c0 buf).2 = ". " ++ toString buf.length) ∧
    (∃ ds,
      (runStream fuel (armClient c0 buf).1).1 = ds ++ [(0, [])] ∧
      (∀ p ∈ ds, 0 < p.1 ∧ p.1 ≤ SEND_BUF_SIZE ∧ p.2.length = p.1) ∧
      (ds.map Prod.snd).flatten = buf ∧
      ((ds.map Prod.fst).sum = buf.length) ∧
      (runStream fuel (armClient c0 buf).1).2.send_data = false ∧
      (runStream fuel (armClient c0 buf).1).2.image_data = none) ∧
    (∀ c : ClientInfo, c.send_data = true → c.data_count < c.total_count →
      c.data_count ≤ (client_send_binary c).1.data_count ∧
        (client_send_binary c).1.data_count ≤ c.total_count) := by
  refine ⟨rfl, ?_, fun c h1 h2 => send_binary_cursor_step c h1 h2⟩
  obtain ⟨ds, h1, h2, h3, h4, h5⟩ :=
    runStream_spec fuel buf (armClient c0 buf).1 rfl rfl rfl
      (by simp [armClient]) (by simp [armClient]; omega)
  refine ⟨ds, h1, h2, by simpa using h3, ?_, h4, h5⟩
  have : ((ds.map Prod.snd).flatten).length = buf.length := by
    rw [h3]; simp [armClient]
  rw [← this]
  rw [List.length_flatten]
  simp only [List.map_map]
  congr 1
  apply List.map_congr_left
  intro p hp
  exact ((h2 p hp).2.2).symm ▸ rfl

/-- Witness for C1 at a concrete buffer. -/
theorem C1_stream_delivery_witness :
    (([1, 2, 3] : List ℕ).length + 2 ≤ 6) ∧
    (((armClient ⟨none, false, 0, 0, none⟩ [1, 2, 3]).2 =
        ". " ++ toString ([1, 2, 3] : List ℕ).length) ∧
     (∃ ds,
       (runStream 6 (armClient ⟨none, false, 0, 0, none⟩ [1, 2, 3]).1).1 =
         ds ++ [(0, [])] ∧
       (∀ p ∈ ds, 0 < p.1 ∧ p.1 ≤ SEND_BUF_SIZE ∧ p.2.length = p.1) ∧
       (ds.map Prod.snd).flatten = [1, 2, 3] ∧
       ((ds.map Prod.fst).sum = ([1, 2, 3] : List ℕ).length) ∧
       (runStream 6 (armClient ⟨none, false, 0, 0, none⟩ [1, 2, 3]).1).2.send_data
         = false ∧
       (runStream 6 (armClient ⟨none, false, 0, 0, none⟩ [1, 2, 3]).1).2.image_data
         = none) ∧
     (∀ c : ClientInfo, c.send_data = true → c.data_count < c.total_count →
       c.data_count ≤ (client_send_binary c).1.data_count ∧
         (client_send_binary c).1.data_count ≤ c.total_count)) :=
  ⟨by norm_num,
   C1_stream_delivery ⟨none, false, 0, 0, none⟩ [1, 2, 3] 6 (by norm_num)⟩

/-! ### C9 — on-disconnect buffer release -/

/-- C9 (amended): on the Tau server the disconnect hook releases both
the hostname string and any pending image buffer; on the ZWO server it
releases only the hostname string, so a pending image buffer that has
not been fully streamed is leaked rather than released. -/
theorem C9_disconnect_release (c : ClientInfo) :
    (tau_client_del c).hostname = none ∧
    (tau_client_del c).image_data = none ∧
    (zwo_client_del c).hostname = none ∧
    (zwo_client_del c).image_data = c.image_data := by
  refine ⟨rfl, rfl, rfl, rfl⟩

/-- Counterexample to C9 as stated: a ZWO client that disconnects while
owning a pending (not fully streamed) image buffer keeps that buffer
allocated after the on-disconnect hook runs. -/
theorem C9_counterexample :
    (zwo_client_del
        ⟨some "saopele.cfht.hawaii.edu", true, 0, 3, some [1, 2, 3]⟩).image_data
      = some [1, 2, 3] := rfl

/-! ### C5 — bias correction of the accumulated image

Embedded from `taucamServ:663`–`694` (`writeFITSImage`): the minimum
scan starts from an initial value of 65535, each output pixel is the
accumulator value minus that minimum, clamped at 65535.  The values are
C `int`s, modelled as `ℤ`. -/

theorem foldlMin_le_init (l : List ℤ) : ∀ (a : ℤ),
    l.foldl (fun m x => if x < m then x else m) a ≤ a := by
  induction l with
  | nil => intro a; exact le_refl a
  | cons y t iht =>
    intro a
    simp only [List.foldl_cons]
    by_cases hy : y < a
    · rw [if_pos hy]; exact le_trans (iht y) (le_of_lt hy)
    · rw [if_neg hy]; exact iht a

theorem foldlMin_le_mem (l : List ℤ) : ∀ (a y : ℤ), y ∈ l →
    l.foldl (fun m x => if x < m then x else m) a ≤ y := by
  induction l with
  | nil => intro a y hy; cases hy
  | cons z t iht =>
    intro a y hy
    rcases List.mem_cons.1 hy with h | h
    · subst h
      simp only [List.foldl_cons]
      by_cases hya : y < a
      · rw [if_pos hya]; exact foldlMin_le_init t y
      · rw [if_neg hya]
        exact le_trans (foldlMin_le_init t a) (le_of_not_lt hya)
    · simp only [List.foldl_cons]
      by_cases hza : z < a
      · rw [if_pos hza]; exact iht z y h
      · rw [if_neg hza]; exact iht a y h

theorem foldlMin_mem_or_init (l : List ℤ) : ∀ (a : ℤ),
    l.foldl (fun m x => if x < m then x else m) a ∈ l ∨
      l.foldl (fun m x => if x < m then x else m) a = a := by
  induction l with
  | nil => intro a; exact Or.inr rfl
  | cons z t iht =>
    intro a
    simp only [List.foldl_cons]
    by_cases hz : z < a
    · rw [if_pos hz]
      rcases iht z with h | h
      · exact Or.inl (List.mem_cons_of_mem z h)
      · rw [h]; exact Or.inl (List.mem_cons_self z t)
    · rw [if_neg hz]
      rcases iht a with h | h
      · exact Or.inl (List.mem_cons_of_mem z h)
      · exact Or.inr h

theorem stackMin_le_mem (stack : List ℤ) (x : ℤ) (hx : x ∈ stack) :
    stackMin stack ≤ x :=
  foldlMin_le_mem stack 65535 x hx

/-- C5 (amended): the bias-corrected output has minimum pixel value
exactly 0 provided some accumulated value is at most 65535 (which makes
the 65535-capped minimum scan find the true minimum); every output
pixel is non-negative, and the pixel holding the minimum accumulated
value maps to 0.  Without that proviso the claim fails, because the
minimum scan starts at 65535 and can only go down. -/
theorem C5_bias_floor (stack : List ℤ)
    (_hpos : ∀ x ∈ stack, 0 ≤ x)
    (hsome : ∃ x ∈ stack, x ≤ 65535) :
    (0 ∈ biasCorrect stack) ∧ (∀ y ∈ biasCorrect stack, 0 ≤ y) := by
  obtain ⟨x0, hx0mem, hx0le⟩ := hsome
  -- the capped scan finds the true minimum of the list
  have hmin_mem : stackMin stack ∈ stack ∨ stackMin stack = 65535 :=
    foldlMin_mem_or_init stack 65535
  -- there is an element achieving the scan result
  have hachieve : ∃ m ∈ stack, m = stackMin stack := by
    rcases hmin_mem with h | h
    · exact ⟨stackMin stack, h, rfl⟩
    · -- scan stayed at 65535: then x0 ≥ min and x0 ≤ 65535 force x0 = 65535
      have h1 := stackMin_le_mem stack x0 hx0mem
      rw [h] at h1
      have : x0 = 65535 := le_antisymm hx0le h1
      exact ⟨x0, hx0mem, by rw [this, h]⟩
  obtain ⟨m, hm_mem, hm_eq⟩ := hachieve
  constructor
  · -- the element achieving the minimum maps to 0
    have : (if 65535 < m - stackMin stack then (65535 : ℤ)
        else m - stackMin stack) = 0 := by
      rw [← hm_eq]
      simp
    have hmem : (if 65535 < m - stackMin stack then (65535 : ℤ)
        else m - stackMin stack) ∈ biasCorrect stack := by
      unfold biasCorrect
      exact List.mem_map_of_mem _ hm_mem
    rw [this] at hmem
    exact hmem
  · intro y hy
    unfold biasCorrect at hy
    obtain ⟨x, hx_mem, hx_eq⟩ := List.mem_map.1 hy
    by_cases hc : 65535 < x - stackMin stack
    · rw [if_pos hc] at hx_eq; omega
    · rw [if_neg hc] at hx_eq
      have := stackMin_le_mem stack x hx_mem
      omega

/-- Witness for C5: accumulator `[5, 70000]`; the minimum value 5 maps
to 0 and the large value clamps to 65535. -/
theorem C5_bias_floor_witness :
    ((∀ x ∈ ([5, 70000] : List ℤ), 0 ≤ x) ∧ (∃ x ∈ ([5, 70000] : List ℤ), x ≤ 65535)) ∧
    ((0 ∈ biasCorrect [5, 70000]) ∧ (∀ y ∈ biasCorrect [5, 70000], 0 ≤ y)) :=
  ⟨⟨by decide, by decide⟩, C5_bias_floor [5, 70000] (by decide) (by decide)⟩

/-- Counterexample to C5 as stated: an accumulator whose every entry
exceeds 65535 (possible for a sum of many frames) yields an output
whose minimum is 4465, not 0, because the scan's 65535 cap hides the
true minimum 70000. -/
theorem C5_counterexample :
    biasCorrect [70000] = [4465] ∧ (0 : ℤ) ∉ biasCorrect [70000] := by
  constructor <;> decide

/-! ### C3 — the `etime` command -/

theorem zwoQuant_eq (v : ℚ) (hv : 0 < v) :
    zwoQuant v = (⌊1000 * v + 1 / 2⌋ : ℚ) / 1000 := by
  unfold zwoQuant ctrunc
  have harg : (v + tgt_stp / 2) / tgt_stp = 1000 * v + 1 / 2 := by
    unfold tgt_stp; ring
  rw [harg]
  rw [if_neg (by linarith : ¬ (1000 * v + 1 / 2 < 0))]
  unfold tgt_stp
  ring

theorem zwoQuant_bounds (v : ℚ) (h1 : tgt_min ≤ v) (h2 : v ≤ tgt_max) :
    tgt_min ≤ zwoQuant v ∧ zwoQuant v ≤ tgt_max := by
  have hvpos : 0 < v := lt_of_lt_of_le (by norm_num [tgt_min]) h1
  rw [zwoQuant_eq v hvpos]
  unfold tgt_min at h1 ⊢
  unfold tgt_max at h2 ⊢
  have hk1 : (1 : ℤ) ≤ ⌊1000 * v + 1 / 2⌋ := by
    apply Int.le_floor.2
    push_cast
    linarith
  have hk2 : ⌊1000 * v + 1 / 2⌋ ≤ 600000 := by
    apply Int.floor_le_iff.2
    push_cast
    linarith
  constructor
  · rw [le_div_iff₀ (by norm_num : (0 : ℚ) < 1000)]
    have : ((1 : ℤ) : ℚ) ≤ (⌊1000 * v + 1 / 2⌋ : ℚ) := by exact_mod_cast hk1
    linarith
  · rw [div_le_iff₀ (by norm_num : (0 : ℚ) < 1000)]
    have : ((⌊1000 * v + 1 / 2⌋ : ℤ) : ℚ) ≤ 600000 := by exact_mod_cast hk2
    linarith

theorem zwoClamp_id (q : ℚ) (h1 : tgt_min ≤ q) (h2 : q ≤ tgt_max) :
    zwoClamp q = q := by
  unfold zwoClamp
  simp only []
  rw [if_neg (not_lt.2 h2), if_neg (not_lt.2 h1)]

theorem round_near_int (x : ℚ) (k : ℤ) (h : |x - k| ≤ 1 / 10) :
    round x = k := by
  rw [round_eq]
  have habs := abs_le.1 h
  apply Int.floor_eq_iff.2
  constructor
  · have := habs.1; linarith
  · have := habs.2; linarith

theorem fmt3Str_congr (a b : ℚ) (h : round (1000 * a) = round (1000 * b)) :
    fmt3Str a = fmt3Str b := by
  unfold fmt3Str
  rw [h]

/-- C3 (amended): on the ZWO server the claim holds as stated — for an
in-range `v` the `etime` command quantizes `v` to the nearest 0.001s
step, the result needs no further clamping because it already lies in
`[tgt_min, tgt_max]`, the session exposure time is updated exactly when
the new value differs from the current one by more than 0.0001, the
value is persisted to the registry, and the response carries the pass
marker, the command name and exactly the clamped/quantized value (up to
the response's three-decimal formatting); `etime 0` leaves the session
value unchanged and still echoes it.  (On the Tau server the `ETIME`
handler instead rejects out-of-range values, performs no quantization,
and its pass response carries no value at all — see the
counterexample.) -/
theorem C3_etime_zwo (st : ZwoState) (v : ℚ)
    (hv : v = 0 ∨ (tgt_min ≤ v ∧ v ≤ tgt_max)) :
    (v = 0 → com_etime st v = (st, ". etime " ++ fmt3Str st.etime,
        [RegWrite.rnum SS_ETIME_VIS st.etime])) ∧
    (v ≠ 0 →
      (tgt_min ≤ zwoClamp (zwoQuant v) ∧ zwoClamp (zwoQuant v) ≤ tgt_max) ∧
      zwoClamp (zwoQuant v) = zwoQuant v ∧
      (1 / 10000 < |st.etime - zwoClamp (zwoQuant v)| →
          (com_etime st v).1.etime = zwoClamp (zwoQuant v)) ∧
      (¬ 1 / 10000 < |st.etime - zwoClamp (zwoQuant v)| →
          (com_etime st v).1.etime = st.etime) ∧
      (com_etime st v).2.1 = ". etime " ++ fmt3Str (zwoClamp (zwoQuant v)) ∧
      (com_etime st v).2.2 = [RegWrite.rnum SS_ETIME_VIS (com_etime st v).1.etime]) := by
  constructor
  · intro h0
    subst h0
    simp [com_etime]
  · intro hne
    have hr : tgt_min ≤ v ∧ v ≤ tgt_max := by
      rcases hv with h | h
      · exact absurd h hne
      · exact h
    have hq := zwoQuant_bounds v hr.1 hr.2
    have hclamp : zwoClamp (zwoQuant v) = zwoQuant v := zwoClamp_id _ hq.1 hq.2
    have hqb : tgt_min ≤ zwoClamp (zwoQuant v) ∧ zwoClamp (zwoQuant v) ≤ tgt_max := by
      rw [hclamp]; exact hq
    refine ⟨hqb, hclamp, ?_, ?_, ?_, ?_⟩
    · intro hdiff
      simp only [com_etime, if_pos hne]
      rw [if_pos hdiff]
    · intro hdiff
      simp only [com_etime, if_pos hne]
      rw [if_neg hdiff]
    · by_cases hdiff : 1 / 10000 < |st.etime - zwoClamp (zwoQuant v)|
      · simp only [com_etime, if_pos hne]
        rw [if_pos hdiff]
      · simp only [com_etime, if_pos hne]
        rw [if_neg hdiff]
        -- the retained old value prints identically to the new one
        have hqk : zwoClamp (zwoQuant v) = (⌊1000 * v + 1 / 2⌋ : ℚ) / 1000 := by
          rw [hclamp]
          exact zwoQuant_eq v (lt_of_lt_of_le (by norm_num [tgt_min]) hr.1)
        have hclose : |st.etime - zwoClamp (zwoQuant v)| ≤ 1 / 10000 :=
          le_of_not_lt hdiff
        have hrq : round (1000 * zwoClamp (zwoQuant v)) = ⌊1000 * v + 1 / 2⌋ := by
          rw [hqk]
          have : (1000 : ℚ) * ((⌊1000 * v + 1 / 2⌋ : ℚ) / 1000)
              = (⌊1000 * v + 1 / 2⌋ : ℚ) := by ring
          rw [this, round_intCast]
        have hre : round (1000 * st.etime) = ⌊1000 * v + 1 / 2⌋ := by
          apply round_near_int
          have h1 : (1000 : ℚ) * st.etime - (⌊1000 * v + 1 / 2⌋ : ℚ)
              = 1000 * (st.etime - zwoClamp (zwoQuant v)) := by
            rw [hqk]; ring
          rw [h1, abs_mul]
          rw [show |(1000 : ℚ)| = 1000 by norm_num]
          linarith
        exact congrArg (fun s => ". etime " ++ s)
          (fmt3Str_congr st.etime (zwoClamp (zwoQuant v)) (hre.trans hrq.symm))
    · simp [com_etime, if_pos hne]

/-- Witness for C3 at `etime 2.5` on a fresh session. -/
theorem C3_etime_zwo_witness :
    ((5 / 2 : ℚ) = 0 ∨ (tgt_min ≤ (5 / 2 : ℚ) ∧ (5 / 2 : ℚ) ≤ tgt_max)) ∧
    (((5 / 2 : ℚ) = 0 → com_etime ⟨0, 0⟩ (5 / 2) = (⟨0, 0⟩,
        ". etime " ++ fmt3Str (ZwoState.mk 0 0).etime,
        [RegWrite.rnum SS_ETIME_VIS (ZwoState.mk 0 0).etime])) ∧
    ((5 / 2 : ℚ) ≠ 0 →
      (tgt_min ≤ zwoClamp (zwoQuant (5 / 2)) ∧ zwoClamp (zwoQuant (5 / 2)) ≤ tgt_max) ∧
      zwoClamp (zwoQuant (5 / 2)) = zwoQuant (5 / 2) ∧
      (1 / 10000 < |(ZwoState.mk 0 0).etime - zwoClamp (zwoQuant (5 / 2))| →
          (com_etime ⟨0, 0⟩ (5 / 2)).1.etime = zwoClamp (zwoQuant (5 / 2))) ∧
      (¬ 1 / 10000 < |(ZwoState.mk 0 0).etime - zwoClamp (zwoQuant (5 / 2))| →
          (com_etime ⟨0, 0⟩ (5 / 2)).1.etime = (ZwoState.mk 0 0).etime) ∧
      (com_etime ⟨0, 0⟩ (5 / 2)).2.1 =
        ". etime " ++ fmt3Str (zwoClamp (zwoQuant (5 / 2))) ∧
      (com_etime ⟨0, 0⟩ (5 / 2)).2.2 =
        [RegWrite.rnum SS_ETIME_VIS (com_etime ⟨0, 0⟩ (5 / 2)).1.etime])) :=
  ⟨Or.inr ⟨by norm_num [tgt_min], by norm_num [tgt_max]⟩,
   C3_etime_zwo ⟨0, 0⟩ (5 / 2)
     (Or.inr ⟨by norm_num [tgt_min], by norm_num [tgt_max]⟩)⟩

/-- Counterexample to C3 as stated: on the Tau server, `ETIME 2.5`
succeeds but the pass response is the bare `". ETIME"`; it does not
carry the clamped/quantized value (`"2.500"`) anywhere, and `ETIME 0`
is rejected as out of range instead of echoing the current value. -/
theorem C3_counterexample :
    (tau_com_etime ⟨TauGain.auto, 1, 2, 2, some [0, 0, 0, 0], 0, 0⟩
        ⟨none, false, 0, 0, none⟩ (5 / 2)).2.2.1 = ". ETIME" ∧
    fmt3Str (zwoClamp (zwoQuant (5 / 2))) = "2.500" ∧
    containsSeq ". ETIME".toList "2.500".toList = false ∧
    (tau_com_etime ⟨TauGain.auto, 1, 2, 2, some [0, 0, 0, 0], 0, 0⟩
        ⟨none, false, 0, 0, none⟩ 0).2.2.1
      = "! ETIME \"Invalid exposure time specified\"" := by
  have hcond : ¬ ((5 / 2 : ℚ) < MIN_ETIME ∨ MAX_ETIME < (5 / 2 : ℚ)) := by
    norm_num [MIN_ETIME, MAX_ETIME]
  have hcond0 : ((0 : ℚ) < MIN_ETIME ∨ MAX_ETIME < (0 : ℚ)) := by
    norm_num [MIN_ETIME]
  refine ⟨?_, ?_, by decide, ?_⟩
  · simp only [tau_com_etime, if_neg hcond]
  · have hqv : zwoClamp (zwoQuant (5 / 2 : ℚ)) = 5 / 2 := by
      have h1 : zwoQuant (5 / 2 : ℚ) = 5 / 2 := by
        rw [zwoQuant_eq (5 / 2 : ℚ) (by norm_num)]
        norm_num
      rw [h1]
      apply zwoClamp_id <;> norm_num [tgt_min, tgt_max]
    rw [hqv]
    unfold fmt3Str
    rw [show round ((1000 : ℚ) * (5 / 2)) = 2500 by norm_num [round_eq]]
    rfl
  · simp only [tau_com_etime, if_pos hcond0]

theorem caseEq_true_iff (s t : List Char) :
    caseEq s t = true ↔ s.map Char.toUpper = t.map Char.toUpper := by
  simp [caseEq]

/-! ### C6 — gain validation -/

/-- C6 (amended): on both servers an invalid gain argument is rejected
with a fail response carrying a diagnostic string and without mutating
the session gain, and a valid argument updates the gain and persists it
to the registry — on the Tau server for each of the four keywords
`AUTO`, `HIGH`, `LOW` and `MANUAL`, matched case-insensitively.  The
ZWO pass response echoes the value; the Tau (symbolic) pass response
carries only the command keyword, not the value (see the
counterexample). -/
theorem C6_gain_validation (st : ZwoState) (g : ℤ)
    (tst : TauServState) (arg : List Char) :
    ((g < MIN_GAIN ∨ MAX_GAIN < g) →
      com_gain st g = (st, "! gain \"invalid value\"", [])) ∧
    (¬ (g < MIN_GAIN ∨ MAX_GAIN < g) →
      com_gain st g = ({ st with gain := g }, ". gain " ++ toString g,
        [RegWrite.rint SS_GAIN_VIS g])) ∧
    ((caseEq arg "AUTO".toList = false ∧ caseEq arg "HIGH".toList = false ∧
      caseEq arg "LOW".toList = false ∧ caseEq arg "MANUAL".toList = false) →
      tau_com_gain tst arg = (tst, "! GAIN \"Invalid gain argument specified\"", [])) ∧
    (caseEq arg "AUTO".toList = true →
      tau_com_gain tst arg = ({ tst with gain := TauGain.auto }, ". GAIN",
        [RegWrite.rstr SS_GAIN_IR "AUTO"])) ∧
    (caseEq arg "HIGH".toList = true →
      tau_com_gain tst arg = ({ tst with gain := TauGain.high }, ". GAIN",
        [RegWrite.rstr SS_GAIN_IR "HIGH"])) ∧
    (caseEq arg "LOW".toList = true →
      tau_com_gain tst arg = ({ tst with gain := TauGain.low }, ". GAIN",
        [RegWrite.rstr SS_GAIN_IR "LOW"])) ∧
    (caseEq arg "MANUAL".toList = true →
      tau_com_gain tst arg = ({ tst with gain := TauGain.manual }, ". GAIN",
        [RegWrite.rstr SS_GAIN_IR "MANUAL"])) := by
  have hfalse : ∀ (t u : List Char), caseEq arg t = true →
      t.map Char.toUpper ≠ u.map Char.toUpper → caseEq arg u = false := by
    intro t u h hne
    cases hb : caseEq arg u
    · rfl
    · have h1 := (caseEq_true_iff arg t).mp h
      have h2 := (caseEq_true_iff arg u).mp hb
      exact absurd (h1.symm.trans h2) hne
  refine ⟨?_, ?_, ?_, ?_, ?_, ?_, ?_⟩
  · intro h
    simp only [com_gain, if_pos h]
  · intro h
    simp only [com_gain, if_neg h]
  · intro ⟨h1, h2, h3, h4⟩
    simp only [tau_com_gain, h1, h2, h3, h4]
    rfl
  · intro h
    simp only [tau_com_gain, h]
    rfl
  · intro h
    have hA := hfalse "HIGH".toList "AUTO".toList h (by decide)
    simp only [tau_com_gain, hA, h]
    rfl
  · intro h
    have hA := hfalse "LOW".toList "AUTO".toList h (by decide)
    have hH := hfalse "LOW".toList "HIGH".toList h (by decide)
    simp only [tau_com_gain, hA, hH, h]
    rfl
  · intro h
    have hA := hfalse "MANUAL".toList "AUTO".toList h (by decide)
    have hH := hfalse "MANUAL".toList "HIGH".toList h (by decide)
    have hL := hfalse "MANUAL".toList "LOW".toList h (by decide)
    simp only [tau_com_gain, hA, hH, hL, h]
    rfl

/-- Witness for C6: `gain 600` is rejected without mutation on a ZWO
session (MAX_GAIN is 510). -/
theorem C6_gain_validation_witness :
    ((600 : ℤ) < MIN_GAIN ∨ MAX_GAIN < (600 : ℤ)) ∧
    com_gain ⟨0, 0⟩ 600 = (⟨0, 0⟩, "! gain \"invalid value\"", []) :=
  ⟨by norm_num [MIN_GAIN, MAX_GAIN],
   (C6_gain_validation ⟨0, 0⟩ 600
      ⟨TauGain.manual, 1, 2, 2, none, 0, 0⟩ "AUTO".toList).1
     (by norm_num [MIN_GAIN, MAX_GAIN])⟩

/-- Counterexample to C6 as stated: on the Tau server a valid `GAIN
AUTO` updates the mode and persists it, but the pass response is the
bare `". GAIN"`; the value is not echoed anywhere in it. -/
theorem C6_counterexample :
    (tau_com_gain ⟨TauGain.manual, 1, 2, 2, none, 0, 0⟩ "AUTO".toList).1.gain
      = TauGain.auto ∧
    (tau_com_gain ⟨TauGain.manual, 1, 2, 2, none, 0, 0⟩ "AUTO".toList).2.1
      = ". GAIN" ∧
    containsSeq ". GAIN".toList "AUTO".toList = false := by
  refine ⟨by decide, by decide, by decide⟩

/-! ### C10 — side effects of a successful Tau `ETIME` -/

/-- C10 (amended): a successful `ETIME v` on the Tau server sets the
session exposure time to `v`, persists it, resets the frame count and
the exposure-start timestamp to 0 and frees the requesting client's
pending image buffer (cancelling any accumulation in progress) — but it
leaves the client's `send_data` flag and byte counters untouched, so an
armed binary stream is not disarmed; its backing buffer is merely freed
out from under it. -/
theorem C10_tau_etime_side_effects (st : TauServState) (c : ClientInfo) (v : ℚ)
    (h1 : MIN_ETIME ≤ v) (h2 : v ≤ MAX_ETIME) :
    (tau_com_etime st c v).1.etime = v ∧
    (tau_com_etime st c v).1.frame_count = 0 ∧
    (tau_com_etime st c v).1.exp_start_ts = 0 ∧
    (tau_com_etime st c v).2.1.image_data = none ∧
    (tau_com_etime st c v).2.2.1 = ". ETIME" ∧
    (tau_com_etime st c v).2.2.2 = [RegWrite.rnum SS_ETIME_IR v] ∧
    (tau_com_etime st c v).2.1.send_data = c.send_data ∧
    (tau_com_etime st c v).2.1.data_count = c.data_count ∧
    (tau_com_etime st c v).2.1.total_count = c.total_count := by
  have hcond : ¬ (v < MIN_ETIME ∨ MAX_ETIME < v) := by
    push_neg
    exact ⟨h1, h2⟩
  simp [tau_com_etime, if_neg hcond]

/-- Witness for C10 at `ETIME 1` with an idle client. -/
theorem C10_tau_etime_side_effects_witness :
    (MIN_ETIME ≤ (1 : ℚ) ∧ (1 : ℚ) ≤ MAX_ETIME) ∧
    ((tau_com_etime ⟨TauGain.auto, 2, 2, 2, some [3, 3, 3, 3], 7, 55⟩
        ⟨some "h", false, 0, 0, some [9]⟩ 1).1.etime = 1 ∧
     (tau_com_etime ⟨TauGain.auto, 2, 2, 2, some [3, 3, 3, 3], 7, 55⟩
        ⟨some "h", false, 0, 0, some [9]⟩ 1).1.frame_count = 0 ∧
     (tau_com_etime ⟨TauGain.auto, 2, 2, 2, some [3, 3, 3, 3], 7, 55⟩
        ⟨some "h", false, 0, 0, some [9]⟩ 1).1.exp_start_ts = 0 ∧
     (tau_com_etime ⟨TauGain.auto, 2, 2, 2, some [3, 3, 3, 3], 7, 55⟩
        ⟨some "h", false, 0, 0, some [9]⟩ 1).2.1.image_data = none ∧
     (tau_com_etime ⟨TauGain.auto, 2, 2, 2, some [3, 3, 3, 3], 7, 55⟩
        ⟨some "h", false, 0, 0, some [9]⟩ 1).2.2.1 = ". ETIME" ∧
     (tau_com_etime ⟨TauGain.auto, 2, 2, 2, some [3, 3, 3, 3], 7, 55⟩
        ⟨some "h", false, 0, 0, some [9]⟩ 1).2.2.2
       = [RegWrite.rnum SS_ETIME_IR 1] ∧
     (tau_com_etime ⟨TauGain.auto, 2, 2, 2, some [3, 3, 3, 3], 7, 55⟩
        ⟨some "h", false, 0, 0, some [9]⟩ 1).2.1.send_data
       = (ClientInfo.mk (some "h") false 0 0 (some [9])).send_data ∧
     (tau_com_etime ⟨TauGain.auto, 2, 2, 2, some [3, 3, 3, 3], 7, 55⟩
        ⟨some "h", false, 0, 0, some [9]⟩ 1).2.1.data_count
       = (ClientInfo.mk (some "h") false 0 0 (some [9])).data_count ∧
     (tau_com_etime ⟨TauGain.auto, 2, 2, 2, some [3, 3, 3, 3], 7, 55⟩
        ⟨some "h", false, 0, 0, some [9]⟩ 1).2.1.total_count
       = (ClientInfo.mk (some "h") false 0 0 (some [9])).total_count) :=
  ⟨⟨by norm_num [MIN_ETIME], by norm_num [MAX_ETIME]⟩,
   C10_tau_etime_side_effects ⟨TauGain.auto, 2, 2, 2, some [3, 3, 3, 3], 7, 55⟩
     ⟨some "h", false, 0, 0, some [9]⟩ 1
     (by norm_num [MIN_ETIME]) (by norm_num [MAX_ETIME])⟩

/-- Counterexample to C10 as stated: with a client whose binary stream
is armed (100 bytes pending), a successful `ETIME 1` frees the buffer
but leaves `send_data` set and the counters in place, so the send hook
still reports a 100-byte chunk — now with no backing data — instead of
the stream having been cancelled. -/
theorem C10_counterexample :
    (tau_com_etime ⟨TauGain.auto, 1, 2, 2, some [0, 0, 0, 0], 0, 0⟩
        ⟨some "h", true, 0, 100, some (List.replicate 100 7)⟩ 1).2.1.send_data
      = true ∧
    (client_send_binary
        (tau_com_etime ⟨TauGain.auto, 1, 2, 2, some [0, 0, 0, 0], 0, 0⟩
          ⟨some "h", true, 0, 100, some (List.replicate 100 7)⟩ 1).2.1).2
      = some (100, []) := by
  have hcond : ¬ ((1 : ℚ) < MIN_ETIME ∨ MAX_ETIME < (1 : ℚ)) := by
    norm_num [MIN_ETIME, MAX_ETIME]
  constructor
  · simp [tau_com_etime, if_neg hcond]
  · simp only [tau_com_etime, if_neg hcond]
    decide

/-! ### C4 — exposure timeout -/

/-- If every observation of the wait loop reports zero frames and some
observation's clock exceeds the timeout margin, the loop exits with a
timeout. -/
theorem waitLoop_timeout (start stop : ℚ) (obs : List (ℚ × ℕ))
    (hz : ∀ o ∈ obs, o.2 = 0)
    (hex : ∃ o ∈ obs, start + EXPOSE_TIMEOUT_TAU < o.1) :
    waitLoop start stop obs = .timedOut := by
  induction obs with
  | nil =>
    obtain ⟨o, ho, _⟩ := hex
    cases ho
  | cons hd tl ih =>
    obtain ⟨now, fc⟩ := hd
    have hfc : fc = 0 := hz (now, fc) (List.mem_cons_self _ _)
    subst hfc
    by_cases htime : start + EXPOSE_TIMEOUT_TAU < now
    · simp [waitLoop, htime]
    · rcases hex with ⟨o, ho, hot⟩
      rcases List.mem_cons.1 ho with h | ho'
      · rw [h] at hot
        exact absurd hot htime
      · have htl : waitLoop start stop tl = .timedOut :=
          ih (fun o h => hz o (List.mem_cons_of_mem _ h)) ⟨o, ho', hot⟩
        simp [waitLoop, htime, htl]

/-- C4 (amended): if the configured exposure time is valid and no frame
arrives within the expose-timeout margin after the exposure start, the
Tau `takeImage` aborts with the `"Exposure timeout"` fail response and
the frame count is 0 at that point — but the exposure-start timestamp
is NOT reset: it keeps the start-of-exposure value `t0`.  (The claimed
reset to 0 is what the counterexample refutes.) -/
theorem C4_timeout (st : TauServState) (t0 : ℚ) (obs : List (ℚ × ℕ))
    (he1 : MIN_ETIME ≤ st.etime) (he2 : st.etime ≤ MAX_ETIME)
    (hz : ∀ o ∈ obs, o.2 = 0)
    (hex : ∃ o ∈ obs, t0 + EXPOSE_TIMEOUT_TAU < o.1) :
    (tau_takeImage_wait st t0 obs).2 = .timeoutFail "! IMAGE \"Exposure timeout\"" ∧
    (tau_takeImage_wait st t0 obs).1.frame_count = 0 ∧
    (tau_takeImage_wait st t0 obs).1.exp_start_ts = t0 := by
  have hcond : ¬ (st.etime < MIN_ETIME ∨ MAX_ETIME < st.etime) := by
    push_neg
    exact ⟨he1, he2⟩
  have hwl := waitLoop_timeout t0 (t0 + st.etime) obs hz hex
  simp [tau_takeImage_wait, if_neg hcond, hwl]

/-- Witness for C4: a 1-second exposure started at clock 100 with a
single zero-frame observation at clock 106. -/
theorem C4_timeout_witness :
    (MIN_ETIME ≤ (TauServState.mk TauGain.auto 1 2 2 (some [0, 0, 0, 0]) 0 0).etime ∧
     (TauServState.mk TauGain.auto 1 2 2 (some [0, 0, 0, 0]) 0 0).etime ≤ MAX_ETIME ∧
     (∀ o ∈ [((106 : ℚ), (0 : ℕ))], o.2 = 0) ∧
     (∃ o ∈ [((106 : ℚ), (0 : ℕ))], (100 : ℚ) + EXPOSE_TIMEOUT_TAU < o.1)) ∧
    ((tau_takeImage_wait ⟨TauGain.auto, 1, 2, 2, some [0, 0, 0, 0], 0, 0⟩
        100 [(106, 0)]).2 = .timeoutFail "! IMAGE \"Exposure timeout\"" ∧
     (tau_takeImage_wait ⟨TauGain.auto, 1, 2, 2, some [0, 0, 0, 0], 0, 0⟩
        100 [(106, 0)]).1.frame_count = 0 ∧
     (tau_takeImage_wait ⟨TauGain.auto, 1, 2, 2, some [0, 0, 0, 0], 0, 0⟩
        100 [(106, 0)]).1.exp_start_ts = 100) :=
  ⟨⟨by norm_num [MIN_ETIME], by norm_num [MAX_ETIME],
    by intro o ho; simp at ho; simp [ho],
    ⟨(106, 0), by simp, by norm_num [EXPOSE_TIMEOUT_TAU]⟩⟩,
   C4_timeout ⟨TauGain.auto, 1, 2, 2, some [0, 0, 0, 0], 0, 0⟩ 100 [(106, 0)]
     (by norm_num [MIN_ETIME]) (by norm_num [MAX_ETIME])
     (by intro o ho; simp at ho; simp [ho])
     ⟨(106, 0), by simp, by norm_num [EXPOSE_TIMEOUT_TAU]⟩⟩

/-- Counterexample to C4 as stated: after the timeout abort of an
exposure started at clock 100, the exposure-start timestamp still reads
100 — it is not reset to 0 on the timeout path (the resets happen only
on the success and encode-failure paths). -/
theorem C4_counterexample :
    (tau_takeImage_wait ⟨TauGain.auto, 1, 2, 2, some [0, 0, 0, 0], 0, 0⟩
        100 [(106, 0)]).2 = .timeoutFail "! IMAGE \"Exposure timeout\"" ∧
    (tau_takeImage_wait ⟨TauGain.auto, 1, 2, 2, some [0, 0, 0, 0], 0, 0⟩
        100 [(106, 0)]).1.exp_start_ts = 100 ∧
    (100 : ℚ) ≠ 0 := by
  have hcond : ¬ ((1 : ℚ) < MIN_ETIME ∨ MAX_ETIME < (1 : ℚ)) := by
    norm_num [MIN_ETIME, MAX_ETIME]
  have hwl : waitLoop 100 (100 + 1) [((106 : ℚ), (0 : ℕ))] = .timedOut := by
    simp only [waitLoop]
    rw [if_pos ⟨by trivial, by norm_num [EXPOSE_TIMEOUT_TAU]⟩]
  refine ⟨?_, ?_, by norm_num⟩
  · simp [tau_takeImage_wait, if_neg hcond, hwl]
  · simp [tau_takeImage_wait, if_neg hcond, hwl]

/-! ### C7 — `image` request matching -/

theorem ciStarts_append (p : List Char) :
    ∀ (w b : List Char), w.map Char.toUpper = p.map Char.toUpper →
    ciStarts (w ++ b) p = true := by
  induction p with
  | nil =>
    intro w b _
    cases w ++ b with
    | nil => rfl
    | cons c s => rfl
  | cons d p' ih =>
    intro w b h
    cases w with
    | nil => simp at h
    | cons c w' =>
      simp only [List.map_cons, List.cons.injEq] at h
      obtain ⟨h1, h2⟩ := h
      show ciStarts (c :: (w' ++ b)) (d :: p') = true
      simp [ciStarts, h1, ih w' b h2]

theorem ciFind_append (p : List Char) (hp : p ≠ []) :
    ∀ (a w b : List Char), w.map Char.toUpper = p.map Char.toUpper →
    ciFind (a ++ w ++ b) p = true := by
  intro a
  induction a with
  | nil =>
    intro w b h
    cases w with
    | nil =>
      cases p with
      | nil => exact absurd rfl hp
      | cons d p' => simp at h
    | cons c w' =>
      show ciFind (c :: (w' ++ b)) p = true
      simp only [ciFind, Bool.or_eq_true]
      exact Or.inl (ciStarts_append p (c :: w') b h)
  | cons x a' ih =>
    intro w b h
    show ciFind (x :: (a' ++ w ++ b)) p = true
    simp only [ciFind, Bool.or_eq_true]
    exact Or.inr (ih w b h)

/-- The Tau router yields an image request exactly when the trimmed
line is the bare token `IMAGE`, case-insensitively. -/
theorem tau_image_iff (s : List Char) :
    tau_client_recv s = TauAction.takeImg ↔
      caseEq (trimC s) "IMAGE".toList = true := by
  simp only [tau_client_recv]
  by_cases hsp : ' ' ∈ trimC s
  · rw [if_pos hsp]
    constructor
    · intro h
      exfalso
      split at h
      · simp at h
      · split at h
        · simp at h
        · simp at h
    · intro h
      exfalso
      have hmap : (trimC s).map Char.toUpper = "IMAGE".toList.map Char.toUpper :=
        (caseEq_true_iff _ _).1 h
      have hmem : Char.toUpper ' ' ∈ (trimC s).map Char.toUpper :=
        List.mem_map_of_mem Char.toUpper hsp
      rw [hmap] at hmem
      exact absurd hmem (by decide)
  · rw [if_neg hsp]
    constructor
    · intro h
      split at h
      · simp at h
      · split at h
        · rename_i hkw hcond
          exact hcond
        · split at h
          · simp at h
          · split at h <;> simp at h
    · intro h
      have hmap : (trimC s).map Char.toUpper = "IMAGE".toList := by
        have h1 := (caseEq_true_iff _ _).1 h
        rw [show "IMAGE".toList.map Char.toUpper = "IMAGE".toList from by decide] at h1
        exact h1
      have hq : caseEq (trimC s) ['Q', 'U', 'I', 'T'] = false := by
        simp [caseEq, hmap]
      have hb : caseEq (trimC s) ['B', 'Y', 'E'] = false := by
        simp [caseEq, hmap]
      have he : caseEq (trimC s) ['E', 'X', 'I', 'T'] = false := by
        simp [caseEq, hmap]
      have hl : caseEq (trimC s) ['L', 'O', 'G', 'O', 'U', 'T'] = false := by
        simp [caseEq, hmap]
      rw [if_neg (by simp [hq, hb, he, hl])]
      rw [if_pos h]

/-- C7 (amended): on the ZWO server every received line containing the
substring `image` anywhere, in any letter case, is routed to the
acquisition routine before the generic command dispatch (the `stristr`
scan in `client_recv` runs first and pre-empts `cli_execute`).  On the
Tau server, by contrast, an image request is recognised only when the
whole trimmed line is the bare token `IMAGE` (case-insensitive, no
arguments); a line merely containing the substring falls through to the
generic syntax-error path. -/
theorem C7_image_matching :
    (∀ (a w b : List Char), w.map Char.toUpper = "IMAGE".toList →
        zwo_client_recv (a ++ w ++ b) = ZwoAction.takeImg) ∧
    (∀ s : List Char, tau_client_recv s = TauAction.takeImg ↔
        caseEq (trimC s) "IMAGE".toList = true) := by
  constructor
  · intro a w b h
    have hmap : w.map Char.toUpper = "IMAGE".toList.map Char.toUpper := by
      rw [show "IMAGE".toList.map Char.toUpper = "IMAGE".toList from by decide]
      exact h
    have hfound := ciFind_append "IMAGE".toList (by decide) a w b hmap
    have hfound2 : ciFind (a ++ (w ++ b)) ['I', 'M', 'A', 'G', 'E'] = true := by
      rw [← List.append_assoc]
      exact hfound
    simp [zwo_client_recv, hfound2]
  · exact tau_image_iff

/-- Witness for C7: a line that merely contains `ImAgE` triggers
acquisition on the ZWO server. -/
theorem C7_image_matching_witness :
    ("ImAgE".toList.map Char.toUpper = "IMAGE".toList) ∧
    zwo_client_recv ("get ".toList ++ "ImAgE".toList ++ " now".toList)
      = ZwoAction.takeImg :=
  ⟨by decide,
   C7_image_matching.1 "get ".toList "ImAgE".toList " now".toList (by decide)⟩

/-- Counterexample to C7 as stated: the line `imagex` contains the
substring `image`, yet the Tau server routes it to the syntax-error
path, not to acquisition. -/
theorem C7_counterexample :
    "imagex".toList = [] ++ "image".toList ++ "x".toList ∧
    "image".toList.map Char.toUpper = "IMAGE".toList ∧
    tau_client_recv "imagex".toList = TauAction.syntaxErr ∧
    TauAction.syntaxErr ≠ TauAction.takeImg := by
  refine ⟨by decide, by decide, by decide, by decide⟩

/-! ### `medianCalculation` — in-place partition-based selection

Embedded from `taucamServ:350`–`412` (= `taucamLocal.cc:314`–`376`).
The array of `unsigned short`s is modelled as a `List ℕ`; `ELEM_SWAP`
becomes `lswap`.  The stride parameter `m` is specialised to 1, the
only value either caller (`callbackTauImage`, via a disposable copy of
the frame) ever passes and the one the claim fixes; with `m = 1` the
`* m` index factors all drop out.  The two inner `do/while` scans and
the outer loops are embedded with explicit fuel; the scans additionally
carry an index-bounds guard where the C code relies on the
median-of-three sentinels to stay in bounds (the correctness proof
shows the guard never fires on the states the algorithm reaches). -/

/-- C2: evaluation of both callback variants on a concrete frame
delivered during an active exposure window (`exp_start_ts = 50 ≠ 0`,
matching 2×2 dimensions, zeroed accumulator).  The `taucamServ`
callback stores the RAW frame `[10, 20, 30, 40]` into the accumulator
(the median-subtraction line is commented out; the computed median 20
is discarded), while the `taucamLocal.cc` variant produces the
median-subtracted sum `[-10, 0, 10, 20]` that the claim — and the
comment right above the loop in `taucamServ` itself — describes.  Both
increment the frame count. -/
theorem C2_callback_divergence :
    (callbackTauImage_serv ⟨TauGain.auto, 1, 2, 2, some [0, 0, 0, 0], 0, 50⟩
        2 2 [10, 20, 30, 40]).stack_data = some [10, 20, 30, 40] ∧
    (callbackTauImage_serv ⟨TauGain.auto, 1, 2, 2, some [0, 0, 0, 0], 0, 50⟩
        2 2 [10, 20, 30, 40]).frame_count = 1 ∧
    medianVal [10, 20, 30, 40] = 20 ∧
    (callbackTauImage_local ⟨TauGain.auto, 1, 2, 2, some [0, 0, 0, 0], 0, 50⟩
        2 2 [10, 20, 30, 40]).stack_data = some [-10, 0, 10, 20] ∧
    (callbackTauImage_local ⟨TauGain.auto, 1, 2, 2, some [0, 0, 0, 0], 0, 50⟩
        2 2 [10, 20, 30, 40]).frame_count = 1 ∧
    some ([10, 20, 30, 40] : List ℤ) ≠ some [-10, 0, 10, 20] := by
  refine ⟨by decide, by decide, by decide, by decide, by decide, by decide⟩

/-! ### List index/swap lemmas for the selection proof -/

theorem getD_set (l : List ℕ) : ∀ (i k v : ℕ),
    (l.set i v).getD k 0 = if i = k ∧ i < l.length then v else l.getD k 0 := by
  induction l with
  | nil =>
    intro i k v
    simp [List.set]
  | cons x t ih =>
    intro i k v
    cases i with
    | zero =>
      cases k with
      | zero => simp
      | succ k' => simp
    | succ i' =>
      cases k with
      | zero => simp
      | succ k' =>
        simp only [List.set, List.getD_cons_succ, List.length_cons, ih i' k' v]
        by_cases h : i' = k' ∧ i' < t.length
        · rw [if_pos h, if_pos ⟨by omega, by omega⟩]
        · rw [if_neg h, if_neg (by omega)]

theorem set_getD_self (l : List ℕ) : ∀ (i : ℕ), l.set i (l.getD i 0) = l := by
  induction l with
  | nil => intro i; simp
  | cons x t ih =>
    intro i
    cases i with
    | zero => simp
    | succ i' =>
      show x :: t.set i' (t.getD i' 0) = x :: t
      rw [ih i']

theorem lswap_length (l : List ℕ) (i j : ℕ) : (lswap l i j).length = l.length := by
  simp [lswap]

theorem getD_lswap (l : List ℕ) (i j k : ℕ) (hi : i < l.length) (hj : j < l.length) :
    (lswap l i j).getD k 0 =
      if k = j then l.getD i 0 else if k = i then l.getD j 0 else l.getD k 0 := by
  unfold lswap
  rw [getD_set, getD_set]
  simp only [List.length_set]
  by_cases hkj : k = j
  · rw [if_pos hkj, if_pos ⟨hkj.symm, hj⟩]
  · rw [if_neg hkj, if_neg (fun h => hkj h.1.symm)]
    by_cases hki : k = i
    · rw [if_pos hki, if_pos ⟨hki.symm, hi⟩]
    · rw [if_neg hki, if_neg (fun h => hki h.1.symm)]

theorem cons_set_perm (t : List ℕ) : ∀ (m a : ℕ), m < t.length →
    ((t.getD m 0) :: (t.set m a)).Perm (a :: t) := by
  induction t with
  | nil => intro m a hm; cases hm
  | cons y t' ih =>
    intro m a hm
    cases m with
    | zero =>
      simp only [List.getD_cons_zero, List.set]
      exact List.Perm.swap a y t'
    | succ m' =>
      have hm' : m' < t'.length := by simpa using hm
      show (t'.getD m' 0 :: y :: t'.set m' a).Perm (a :: y :: t')
      exact List.Perm.trans (List.Perm.swap y (t'.getD m' 0) (t'.set m' a))
        (List.Perm.trans (List.Perm.cons y (ih m' a hm')) (List.Perm.swap a y t'))

theorem lswap_perm (l : List ℕ) : ∀ (i j : ℕ), i < l.length → j < l.length →
    (lswap l i j).Perm l := by
  induction l with
  | nil => intro i j hi _; cases hi
  | cons x t ih =>
    intro i j hi hj
    cases i with
    | zero =>
      cases j with
      | zero =>
        unfold lswap
        simp [set_getD_self]
      | succ j' =>
        have hj' : j' < t.length := by simpa using hj
        show ((t.getD j' 0 :: t).set (j' + 1) x).Perm (x :: t)
        show (t.getD j' 0 :: t.set j' x).Perm (x :: t)
        exact cons_set_perm t j' x hj'
    | succ i' =>
      cases j with
      | zero =>
        have hi' : i' < t.length := by simpa using hi
        show ((x :: t.set i' x).set 0 (t.getD i' 0)).Perm (x :: t)
        show (t.getD i' 0 :: t.set i' x).Perm (x :: t)
        exact cons_set_perm t i' x hi'
      | succ j' =>
        have hi' : i' < t.length := by simpa using hi
        have hj' : j' < t.length := by simpa using hj
        show (x :: (t.set i' (t.getD j' 0)).set j' (t.getD i' 0)).Perm (x :: t)
        exact List.Perm.cons x (ih i' j' hi' hj')

/-! ### Window invariants for the selection proof -/

theorem prefLE_lswap (l : List ℕ) (low i j : ℕ) (h : prefLE l low)
    (hil : low ≤ i) (hjl : low ≤ j) (hi : i < l.length) (hj : j < l.length) :
    prefLE (lswap l i j) low := by
  intro i' j' h1 h2 h3
  rw [lswap_length] at h3
  rw [getD_lswap l i j i' hi hj, getD_lswap l i j j' hi hj]
  rw [if_neg (by omega : ¬ i' = j), if_neg (by omega : ¬ i' = i)]
  by_cases hj'j : j' = j
  · rw [if_pos hj'j]; exact h i' i h1 hil hi
  · rw [if_neg hj'j]
    by_cases hj'i : j' = i
    · rw [if_pos hj'i]; exact h i' j h1 hjl hj
    · rw [if_neg hj'i]; exact h i' j' h1 h2 h3

theorem sufGE_lswap (l : List ℕ) (high i j : ℕ) (h : sufGE l high)
    (hih : i ≤ high) (hjh : j ≤ high) (hi : i < l.length) (hj : j < l.length) :
    sufGE (lswap l i j) high := by
  intro i' j' h1 h2 h3
  rw [lswap_length] at h3
  rw [getD_lswap l i j i' hi hj, getD_lswap l i j j' hi hj]
  rw [if_neg (by omega : ¬ j' = j), if_neg (by omega : ¬ j' = i)]
  by_cases hi'j : i' = j
  · rw [if_pos hi'j]; exact h i j' hih h2 h3
  · rw [if_neg hi'j]
    by_cases hi'i : i' = i
    · rw [if_pos hi'i]; exact h j j' hjh h2 h3
    · rw [if_neg hi'i]; exact h i' j' h1 h2 h3

/-! ### Scan loop specifications -/

theorem scanUp_spec (l : List ℕ) (p : ℕ) : ∀ (fuel j s : ℕ),
    j ≤ s → s < l.length → ¬ (l.getD s 0 < l.getD p 0) → s - j < fuel →
    j ≤ scanUp l p fuel j ∧ scanUp l p fuel j ≤ s ∧
    ¬ (l.getD (scanUp l p fuel j) 0 < l.getD p 0) ∧
    (∀ k, j ≤ k → k < scanUp l p fuel j → l.getD k 0 < l.getD p 0) := by
  intro fuel
  induction fuel with
  | zero => intro j s _ _ _ h4; omega
  | succ fuel ih =>
    intro j s hjs hs hsent hfuel
    by_cases hg : j < l.length ∧ l.getD j 0 < l.getD p 0
    · have hjne : j ≠ s := fun h => hsent (h ▸ hg.2)
      have hrw : scanUp l p (fuel + 1) j = scanUp l p fuel (j + 1) := by
        simp only [scanUp]
        rw [if_pos hg]
      have hrec := ih (j + 1) s (by omega) hs hsent (by omega)
      rw [hrw]
      refine ⟨by omega, hrec.2.1, hrec.2.2.1, ?_⟩
      intro k hk1 hk2
      rcases eq_or_lt_of_le hk1 with h | h
      · rw [← h]; exact hg.2
      · exact hrec.2.2.2 k (by omega) hk2
    · have hrw : scanUp l p (fuel + 1) j = j := by
        simp only [scanUp, if_neg hg]
      rw [hrw]
      refine ⟨le_refl j, hjs, ?_, fun k hk1 hk2 => absurd hk2 (by omega)⟩
      rcases not_and_or.1 hg with h | h
      · exact absurd (by omega : j < l.length) h
      · exact h

theorem scanDown_spec (l : List ℕ) (p : ℕ) : ∀ (fuel j s : ℕ),
    s ≤ j → ¬ (l.getD p 0 < l.getD s 0) → j - s < fuel →
    s ≤ scanDown l p fuel j ∧ scanDown l p fuel j ≤ j ∧
    ¬ (l.getD p 0 < l.getD (scanDown l p fuel j) 0) ∧
    (∀ k, scanDown l p fuel j < k → k ≤ j → l.getD p 0 < l.getD k 0) := by
  intro fuel
  induction fuel with
  | zero => intro j s _ _ h4; omega
  | succ fuel ih =>
    intro j s hsj hsent hfuel
    by_cases hg : 0 < j ∧ l.getD p 0 < l.getD j 0
    · have hjne : j ≠ s := fun h => hsent (h ▸ hg.2)
      have hrw : scanDown l p (fuel + 1) j = scanDown l p fuel (j - 1) := by
        simp only [scanDown]
        rw [if_pos hg]
      have hrec := ih (j - 1) s (by omega) hsent (by omega)
      rw [hrw]
      refine ⟨hrec.1, by omega, hrec.2.2.1, ?_⟩
      intro k hk1 hk2
      rcases eq_or_lt_of_le hk2 with h | h
      · rw [h]; exact hg.2
      · exact hrec.2.2.2 k hk1 (by omega)
    · have hrw : scanDown l p (fuel + 1) j = j := by
        simp only [scanDown, if_neg hg]
      rw [hrw]
      refine ⟨hsj, le_refl j, ?_, fun k hk1 hk2 => absurd hk2 (by omega)⟩
      rcases not_and_or.1 hg with h | h
      · have hj0 : j = 0 := by omega
        have hs0 : s = 0 := by omega
        rw [hs0] at hsent
        rw [hj0]
        exact hsent
      · exact h

/-! ### Partition loop specification -/

theorem partLoop_spec (low high p : ℕ) : ∀ (fuel : ℕ) (l : List ℕ) (ll hh : ℕ),
    low + 1 ≤ ll → ll ≤ hh → low + 2 ≤ hh → ll + 1 ≤ high → hh ≤ high →
    high < l.length →
    l.getD low 0 = p →
    (∀ k, low + 1 ≤ k → k ≤ ll → l.getD k 0 ≤ p) →
    (∀ k, hh ≤ k → k ≤ high → p ≤ l.getD k 0) →
    prefLE l low → sufGE l high →
    hh < fuel →
    ∃ l2 ll1 hh1, partLoop fuel l low ll hh = some (l2, ll1, hh1) ∧
      l2.length = l.length ∧ l2.Perm l ∧
      l2.getD low 0 = p ∧
      low + 1 ≤ hh1 ∧ hh1 < high ∧ hh1 < ll1 ∧ low + 2 ≤ ll1 ∧
      (∀ k, low + 1 ≤ k → k ≤ hh1 → l2.getD k 0 ≤ p) ∧
      (∀ k, hh1 < k → k < ll1 → l2.getD k 0 = p) ∧
      (∀ k, ll1 ≤ k → k ≤ high → p ≤ l2.getD k 0) ∧
      prefLE l2 low ∧ sufGE l2 high ∧
      (∀ k, k < low → l2.getD k 0 = l.getD k 0) ∧
      (∀ k, high < k → l2.getD k 0 = l.getD k 0) := by
  intro fuel
  induction fuel with
  | zero => intro l ll hh _ _ _ _ _ _ _ _ _ _ _ hf; omega
  | succ fuel ih =>
    intro l ll hh hA hB hH hA2 hC hhigh hlowp hF hG hpre hsuf hfuel
    have heq : partLoop (fuel + 1) l low ll hh =
        (if scanDown l low l.length (hh - 1) < scanUp l low l.length (ll + 1)
          then some (l, scanUp l low l.length (ll + 1),
                        scanDown l low l.length (hh - 1))
          else partLoop fuel
            (lswap l (scanUp l low l.length (ll + 1))
                     (scanDown l low l.length (hh - 1)))
            low (scanUp l low l.length (ll + 1))
            (scanDown l low l.length (hh - 1))) := rfl
    have hU := scanUp_spec l low l.length (ll + 1) high (by omega) hhigh
      (by rw [hlowp]; exact not_lt.2 (hG high hC (le_refl high)))
      (by omega)
    have hD := scanDown_spec l low l.length (hh - 1) (low + 1) (by omega)
      (by rw [hlowp]; exact not_lt.2 (hF (low + 1) (le_refl _) hA))
      (by omega)
    set ll1 := scanUp l low l.length (ll + 1) with hll1def
    set hh1 := scanDown l low l.length (hh - 1) with hhh1def
    obtain ⟨hU1, hU2, hU3, hU4⟩ := hU
    obtain ⟨hD1, hD2, hD3, hD4⟩ := hD
    rw [hlowp] at hU3 hU4 hD3 hD4
    have hll1ge : p ≤ l.getD ll1 0 := not_lt.1 hU3
    have hhh1le : l.getD hh1 0 ≤ p := not_lt.1 hD3
    -- the up-scan cannot pass hh + 1
    have hll1hh : ll1 ≤ hh + 1 := by
      by_contra hcon
      push_neg at hcon
      have hup := hU4 (hh + 1) (by omega) (by omega)
      have hdown := hG (hh + 1) (by omega) (by omega)
      omega
    rw [heq]
    by_cases hbr : hh1 < ll1
    · -- the scans crossed: return the break state
      rw [if_pos hbr]
      refine ⟨l, ll1, hh1, rfl, rfl, List.Perm.refl l, hlowp,
        hD1, by omega, hbr, by omega, ?_, ?_, ?_, hpre, hsuf,
        fun k _ => rfl, fun k _ => rfl⟩
      · -- [low+1, hh1] stays ≤ p
        intro k hk1 hk2
        rcases le_or_lt k ll with h | h
        · exact hF k hk1 h
        · exact le_of_lt (hU4 k (by omega) (by omega))
      · -- the gap between hh1 and ll1 is pinned to p
        intro k hk1 hk2
        have hkhh : k ≤ hh := by omega
        have hge : p ≤ l.getD k 0 := by
          rcases lt_or_le k hh with h | h
          · exact le_of_lt (hD4 k hk1 (by omega))
          · have : k = hh := by omega
            rw [this]
            exact hG hh (le_refl hh) hC
        have hle : l.getD k 0 ≤ p := by
          rcases le_or_lt k ll with h | h
          · exact hF k (by omega) h
          · exact absurd (hU4 k (by omega) hk2) (not_lt.2 hge)
        exact le_antisymm hle hge
      · -- [ll1, high] stays ≥ p
        intro k hk1 hk2
        rcases eq_or_lt_of_le hk1 with h | h
        · rw [← h]; exact hll1ge
        · rcases lt_or_le k hh with h2 | h2
          · exact le_of_lt (hD4 k (by omega) (by omega))
          · exact hG k h2 hk2
    · -- no cross yet: swap the stuck pair and continue
      rw [if_neg hbr]
      push_neg at hbr
      have hll1n : ll1 < l.length := by omega
      have hhh1n : hh1 < l.length := by omega
      have hlenswap := lswap_length l ll1 hh1
      have hgd := fun k => getD_lswap l ll1 hh1 k hll1n hhh1n
      have hE2 : (lswap l ll1 hh1).getD low 0 = p := by
        rw [hgd low, if_neg (by omega), if_neg (by omega)]
        exact hlowp
      have hF2 : ∀ k, low + 1 ≤ k → k ≤ ll1 → (lswap l ll1 hh1).getD k 0 ≤ p := by
        intro k hk1 hk2
        rcases eq_or_lt_of_le hk2 with h | h
        · rw [h, hgd ll1]
          by_cases hkh : ll1 = hh1
          · rw [if_pos hkh, hkh]
            exact hhh1le
          · rw [if_neg hkh, if_pos rfl]
            exact hhh1le
        · rw [hgd k, if_neg (by omega), if_neg (by omega)]
          rcases le_or_lt k ll with h2 | h2
          · exact hF k hk1 h2
          · exact le_of_lt (hU4 k (by omega) h)
      have hG2 : ∀ k, hh1 ≤ k → k ≤ high → p ≤ (lswap l ll1 hh1).getD k 0 := by
        intro k hk1 hk2
        rcases eq_or_lt_of_le hk1 with h | h
        · rw [← h, hgd hh1, if_pos rfl]
          exact hll1ge
        · rw [hgd k, if_neg (by omega), if_neg (by omega)]
          rcases lt_or_le k hh with h2 | h2
          · exact le_of_lt (hD4 k (by omega) (by omega))
          · exact hG k h2 hk2
      have hpre2 := prefLE_lswap l low ll1 hh1 hpre (by omega) (by omega) hll1n hhh1n
      have hsuf2 := sufGE_lswap l high ll1 hh1 hsuf (by omega) (by omega) hll1n hhh1n
      have hrec := ih (lswap l ll1 hh1) ll1 hh1
        (by omega) hbr (by omega) (by omega) (by omega)
        (by rw [hlenswap]; exact hhigh)
        hE2 hF2 hG2 hpre2 hsuf2 (by omega)
      obtain ⟨l2, ll2, hh2, hpl, hlen2, hperm2, hE3, c1, c2, c3, c4, c5, c6,
        c7, c8, c9, c10, c11⟩ := hrec
      refine ⟨l2, ll2, hh2, hpl, ?_, ?_, hE3, c1, c2, c3, c4, c5, c6, c7, c8,
        c9, ?_, ?_⟩
      · rw [hlen2, hlenswap]
      · exact hperm2.trans (lswap_perm l ll1 hh1 hll1n hhh1n)
      · intro k hk
        rw [c10 k hk, hgd k, if_neg (by omega), if_neg (by omega)]
      · intro k hk
        rw [c11 k hk, hgd k, if_neg (by omega), if_neg (by omega)]

/-! ### Median-of-three setup specification -/

theorem orderSwap_spec (l : List ℕ) (i j : ℕ) (hi : i < l.length)
    (hj : j < l.length) (hij : i ≠ j) :
    (orderSwap l i j).length = l.length ∧
    (orderSwap l i j).Perm l ∧
    (orderSwap l i j).getD i 0 = min (l.getD i 0) (l.getD j 0) ∧
    (orderSwap l i j).getD j 0 = max (l.getD i 0) (l.getD j 0) ∧
    (∀ k, k ≠ i → k ≠ j → (orderSwap l i j).getD k 0 = l.getD k 0) := by
  unfold orderSwap
  by_cases h : l.getD j 0 < l.getD i 0
  · rw [if_pos h]
    refine ⟨lswap_length l i j, lswap_perm l i j hi hj, ?_, ?_, ?_⟩
    · rw [getD_lswap l i j i hi hj, if_neg hij, if_pos rfl]
      exact (min_eq_right (le_of_lt h)).symm
    · rw [getD_lswap l i j j hi hj, if_pos rfl]
      exact (max_eq_left (le_of_lt h)).symm
    · intro k hk1 hk2
      rw [getD_lswap l i j k hi hj, if_neg hk2, if_neg hk1]
  · rw [if_neg h]
    push_neg at h
    exact ⟨rfl, List.Perm.refl l, (min_eq_left h).symm, (max_eq_right h).symm,
      fun k _ _ => rfl⟩

theorem prefLE_orderSwap (l : List ℕ) (low i j : ℕ) (h : prefLE l low)
    (hil : low ≤ i) (hjl : low ≤ j) (hi : i < l.length) (hj : j < l.length) :
    prefLE (orderSwap l i j) low := by
  unfold orderSwap
  by_cases hc : l.getD j 0 < l.getD i 0
  · rw [if_pos hc]; exact prefLE_lswap l low i j h hil hjl hi hj
  · rw [if_neg hc]; exact h

theorem sufGE_orderSwap (l : List ℕ) (high i j : ℕ) (h : sufGE l high)
    (hih : i ≤ high) (hjh : j ≤ high) (hi : i < l.length) (hj : j < l.length) :
    sufGE (orderSwap l i j) high := by
  unfold orderSwap
  by_cases hc : l.getD j 0 < l.getD i 0
  · rw [if_pos hc]; exact sufGE_lswap l high i j h hih hjh hi hj
  · rw [if_neg hc]; exact h

theorem med3_spec (l : List ℕ) (low high : ℕ)
    (hw : low + 2 ≤ high) (hhigh : high < l.length)
    (hpre : prefLE l low) (hsuf : sufGE l high) :
    (med3Setup l low high).length = l.length ∧
    (med3Setup l low high).Perm l ∧
    prefLE (med3Setup l low high) low ∧
    sufGE (med3Setup l low high) high ∧
    (med3Setup l low high).getD (low + 1) 0 ≤ (med3Setup l low high).getD low 0 ∧
    (med3Setup l low high).getD low 0 ≤ (med3Setup l low high).getD high 0 ∧
    (∀ k, k < low → (med3Setup l low high).getD k 0 = l.getD k 0) ∧
    (∀ k, high < k → (med3Setup l low high).getD k 0 = l.getD k 0) := by
  have hmid1 : low < (low + high) / 2 := by omega
  have hmid2 : (low + high) / 2 < high := by omega
  set middle := (low + high) / 2 with hmiddef
  have h1 := orderSwap_spec l middle high (by omega) hhigh (by omega)
  set a1 := orderSwap l middle high with ha1def
  have h2 := orderSwap_spec a1 low high (by rw [h1.1]; omega)
    (by rw [h1.1]; exact hhigh) (by omega)
  set a2 := orderSwap a1 low high with ha2def
  have h3 := orderSwap_spec a2 middle low
    (by rw [h2.1, h1.1]; omega) (by rw [h2.1, h1.1]; omega) (by omega)
  set a3 := orderSwap a2 middle low with ha3def
  have hlen3 : a3.length = l.length := by rw [h3.1, h2.1, h1.1]
  have hmidn : middle < a3.length := by rw [hlen3]; omega
  have hlow1n : low + 1 < a3.length := by rw [hlen3]; omega
  have hgd4 := fun k => getD_lswap a3 middle (low + 1) k hmidn hlow1n
  have hmed : med3Setup l low high = lswap a3 middle (low + 1) := rfl
  -- tracked values after the three conditional exchanges
  have hv_low : a3.getD low 0 = max (a2.getD middle 0) (a2.getD low 0) := h3.2.2.2.1
  have hv_mid : a3.getD middle 0 = min (a2.getD middle 0) (a2.getD low 0) := h3.2.2.1
  have hv_high3 : a3.getD high 0 = a2.getD high 0 :=
    h3.2.2.2.2 high (by omega) (by omega)
  have hv_low2 : a2.getD low 0 = min (a1.getD low 0) (a1.getD high 0) := h2.2.2.1
  have hv_high2 : a2.getD high 0 = max (a1.getD low 0) (a1.getD high 0) := h2.2.2.2.1
  have hv_mid2 : a2.getD middle 0 = a1.getD middle 0 :=
    h2.2.2.2.2 middle (by omega) (by omega)
  have hv_mid1 : a1.getD middle 0 = min (l.getD middle 0) (l.getD high 0) := h1.2.2.1
  have hv_high1 : a1.getD high 0 = max (l.getD middle 0) (l.getD high 0) := h1.2.2.2.1
  have hv_low1 : a1.getD low 0 = l.getD low 0 :=
    h1.2.2.2.2 low (by omega) (by omega)
  rw [hmed]
  refine ⟨?_, ?_, ?_, ?_, ?_, ?_, ?_, ?_⟩
  · rw [lswap_length, hlen3]
  · exact (lswap_perm a3 middle (low + 1) hmidn hlow1n).trans
      (h3.2.1.trans (h2.2.1.trans h1.2.1))
  · apply prefLE_lswap a3 low middle (low + 1) _ (by omega) (by omega) hmidn hlow1n
    apply prefLE_orderSwap a2 low middle low _ (by omega) (by omega)
      (by rw [h2.1, h1.1]; omega) (by rw [h2.1, h1.1]; omega)
    apply prefLE_orderSwap a1 low low high _ (by omega) (by omega)
      (by rw [h1.1]; omega) (by rw [h1.1]; exact hhigh)
    exact prefLE_orderSwap l low middle high hpre (by omega) (by omega)
      (by omega) hhigh
  · apply sufGE_lswap a3 high middle (low + 1) _ (by omega) (by omega) hmidn hlow1n
    apply sufGE_orderSwap a2 high middle low _ (by omega) (by omega)
      (by rw [h2.1, h1.1]; omega) (by rw [h2.1, h1.1]; omega)
    apply sufGE_orderSwap a1 high low high _ (by omega) (by omega)
      (by rw [h1.1]; omega) (by rw [h1.1]; exact hhigh)
    exact sufGE_orderSwap l high middle high hsuf (by omega) (by omega)
      (by omega) hhigh
  · -- a4[low+1] = a3[middle] ≤ a3[low] = a4[low]
    rw [hgd4 (low + 1), if_pos rfl, hgd4 low,
      if_neg (by omega : ¬ low = low + 1), if_neg (by omega : ¬ low = middle)]
    rw [hv_mid, hv_low]
    exact min_le_max
  · -- a4[low] = a3[low] ≤ a3[high] = a4[high]
    rw [hgd4 low, if_neg (by omega : ¬ low = low + 1),
      if_neg (by omega : ¬ low = middle), hgd4 high,
      if_neg (by omega : ¬ high = low + 1), if_neg (by omega : ¬ high = middle)]
    rw [hv_low, hv_high3, hv_mid2, hv_low2, hv_high2, hv_mid1, hv_high1, hv_low1]
    exact max_le (le_trans (min_le_left _ _)
      (le_trans (le_max_left _ _) (le_max_right _ _))) min_le_max
  · intro k hk
    rw [hgd4 k, if_neg (by omega : ¬ k = low + 1), if_neg (by omega : ¬ k = middle)]
    rw [h3.2.2.2.2 k (by omega) (by omega), h2.2.2.2.2 k (by omega) (by omega),
      h1.2.2.2.2 k (by omega) (by omega)]
  · intro k hk
    rw [hgd4 k, if_neg (by omega : ¬ k = low + 1), if_neg (by omega : ¬ k = middle)]
    rw [h3.2.2.2.2 k (by omega) (by omega), h2.2.2.2.2 k (by omega) (by omega),
      h1.2.2.2.2 k (by omega) (by omega)]

/-! ### Sorted-position facts -/

theorem mem_take_getD (l : List ℕ) (m : ℕ) (x : ℕ) (hx : x ∈ l.take m) :
    ∃ i, i < m ∧ i < l.length ∧ l.getD i 0 = x := by
  rcases List.mem_iff_getElem.1 hx with ⟨i, hi, hval⟩
  have hlen : i < m ∧ i < l.length := by
    have := hi
    rw [List.length_take] at this
    omega
  refine ⟨i, hlen.1, hlen.2, ?_⟩
  rw [List.getD_eq_getElem l 0 hlen.2, ← hval, List.getElem_take]

theorem mem_drop_getD (l : List ℕ) (m : ℕ) (x : ℕ) (hx : x ∈ l.drop m) :
    ∃ i, m ≤ i ∧ i < l.length ∧ l.getD i 0 = x := by
  rcases List.mem_iff_getElem.1 hx with ⟨i, hi, hval⟩
  have hlen : m + i < l.length := by
    have := hi
    rw [List.length_drop] at this
    omega
  refine ⟨m + i, by omega, hlen, ?_⟩
  rw [List.getD_eq_getElem l 0 hlen, ← hval, List.getElem_drop]

theorem sorted_get_of_pivot (l : List ℕ) (m : ℕ) (hm : m < l.length)
    (hlo : ∀ i, i ≤ m → l.getD i 0 ≤ l.getD m 0)
    (hhi : ∀ j, m ≤ j → j < l.length → l.getD m 0 ≤ l.getD j 0) :
    (List.insertionSort (· ≤ ·) l).getD m 0 = l.getD m 0 := by
  set p := l.getD m 0 with hpdef
  set s1 := List.insertionSort (· ≤ ·) (l.take m) with hs1
  set s2 := List.insertionSort (· ≤ ·) (l.drop (m + 1)) with hs2
  have hs1mem : ∀ x ∈ s1, ∃ i, i < m ∧ i < l.length ∧ l.getD i 0 = x := by
    intro x hx
    exact mem_take_getD l m x ((List.perm_insertionSort _ _).mem_iff.1 hx)
  have hs2mem : ∀ x ∈ s2, ∃ i, m + 1 ≤ i ∧ i < l.length ∧ l.getD i 0 = x := by
    intro x hx
    exact mem_drop_getD l (m + 1) x ((List.perm_insertionSort _ _).mem_iff.1 hx)
  have hs1le : ∀ x ∈ s1, x ≤ p := by
    intro x hx
    rcases hs1mem x hx with ⟨i, him, _, hv⟩
    rw [← hv]
    exact hlo i (by omega)
  have hs2ge : ∀ x ∈ s2, p ≤ x := by
    intro x hx
    rcases hs2mem x hx with ⟨i, him, hil, hv⟩
    rw [← hv]
    exact hhi i (by omega) hil
  have hsorted : List.Sorted (· ≤ ·) (s1 ++ p :: s2) := by
    rw [List.Sorted, List.pairwise_append]
    refine ⟨List.sorted_insertionSort _ _, ?_, ?_⟩
    · rw [List.pairwise_cons]
      exact ⟨hs2ge, List.sorted_insertionSort _ _⟩
    · intro a ha b hb
      have hap : a ≤ p := hs1le a ha
      rcases List.mem_cons.1 hb with h | h
      · omega
      · have := hs2ge b h
        omega
  have hsplit : l = l.take m ++ p :: l.drop (m + 1) := by
    conv_lhs => rw [← List.take_append_drop m l]
    rw [List.drop_eq_getElem_cons hm, ← List.getD_eq_getElem l 0 hm]
  have hperm : (s1 ++ p :: s2).Perm l := by
    conv_rhs => rw [hsplit]
    exact List.Perm.append (List.perm_insertionSort _ _)
      (List.Perm.cons p (List.perm_insertionSort _ _))
  have heq : List.insertionSort (· ≤ ·) l = s1 ++ p :: s2 :=
    List.eq_of_perm_of_sorted
      ((List.perm_insertionSort (· ≤ ·) l).trans hperm.symm)
      (List.sorted_insertionSort (· ≤ ·) l) hsorted
  have hs1len : s1.length = m := by
    rw [hs1, List.length_insertionSort, List.length_take]
    omega
  rw [heq, List.getD_append_right _ _ _ _ (by omega), hs1len]
  simp

theorem insertionSort_perm_congr (l1 l2 : List ℕ) (h : l1.Perm l2) :
    List.insertionSort (fun a b => a ≤ b) l1 =
      List.insertionSort (fun a b => a ≤ b) l2 :=
  List.eq_of_perm_of_sorted
    ((List.perm_insertionSort _ l1).trans
      (h.trans (List.perm_insertionSort _ l2).symm))
    (List.sorted_insertionSort _ l1) (List.sorted_insertionSort _ l2)

/-! ### The selection loop: full specification -/

theorem mSelect_spec : ∀ (fuel : ℕ) (l : List ℕ) (low high median : ℕ),
    high < l.length → prefLE l low → sufGE l high → high - low < fuel →
    ∃ v l2, mSelect fuel l low high median = some (v, l2) ∧
      l2.length = l.length ∧ l2.Perm l ∧ v = l2.getD median 0 ∧
      prefLE l2 low ∧ sufGE l2 high ∧
      (∀ k, k < low → l2.getD k 0 = l.getD k 0) ∧
      (∀ k, high < k → l2.getD k 0 = l.getD k 0) ∧
      (low ≤ median → median ≤ high →
        (∀ i, i ≤ median → l2.getD i 0 ≤ l2.getD median 0) ∧
        (∀ j, median ≤ j → j < l2.length → l2.getD median 0 ≤ l2.getD j 0)) := by
  intro fuel
  induction fuel with
  | zero => intro l low high median _ _ _ hfuel; omega
  | succ fuel ih =>
    intro l low high median hlen hpre hsuf hfuel
    by_cases h1 : high ≤ low
    · refine ⟨l.getD median 0, l, ?_, rfl, List.Perm.refl l, rfl, hpre, hsuf,
        fun k _ => rfl, fun k _ => rfl, ?_⟩
      · simp only [mSelect]
        rw [if_pos h1]
      · intro hlm hmh
        constructor
        · intro i hi
          rcases eq_or_lt_of_le hi with h | h
          · exact le_of_eq (by rw [h])
          · exact hpre i median (by omega) (by omega) (by omega)
        · intro j hj hjlen
          rcases eq_or_lt_of_le hj with h | h
          · exact le_of_eq (by rw [h])
          · exact hsuf median j (by omega) (by omega) hjlen
    · by_cases h2 : high = low + 1
      · have hlowlen : low < l.length := by omega
        have hstep : mSelect (fuel + 1) l low high median =
            some ((if l.getD high 0 < l.getD low 0 then lswap l low high
                else l).getD median 0,
              if l.getD high 0 < l.getD low 0 then lswap l low high else l) := by
          simp only [mSelect, if_neg h1, if_pos h2]
        have hlen' : (if l.getD high 0 < l.getD low 0 then lswap l low high
            else l).length = l.length := by
          by_cases hc : l.getD high 0 < l.getD low 0
          · rw [if_pos hc, lswap_length]
          · rw [if_neg hc]
        have hperm' : (if l.getD high 0 < l.getD low 0 then lswap l low high
            else l).Perm l := by
          by_cases hc : l.getD high 0 < l.getD low 0
          · rw [if_pos hc]; exact lswap_perm l low high hlowlen hlen
          · rw [if_neg hc]
        have hpre' : prefLE (if l.getD high 0 < l.getD low 0 then lswap l low high
            else l) low := by
          by_cases hc : l.getD high 0 < l.getD low 0
          · rw [if_pos hc]
            exact prefLE_lswap l low low high hpre (le_refl _) (by omega) hlowlen hlen
          · rw [if_neg hc]; exact hpre
        have hsuf' : sufGE (if l.getD high 0 < l.getD low 0 then lswap l low high
            else l) high := by
          by_cases hc : l.getD high 0 < l.getD low 0
          · rw [if_pos hc]
            exact sufGE_lswap l high low high hsuf (by omega) (le_refl _) hlowlen hlen
          · rw [if_neg hc]; exact hsuf
        have horder : (if l.getD high 0 < l.getD low 0 then lswap l low high
              else l).getD low 0 ≤
            (if l.getD high 0 < l.getD low 0 then lswap l low high
              else l).getD high 0 := by
          by_cases hc : l.getD high 0 < l.getD low 0
          · rw [if_pos hc, getD_lswap l low high low hlowlen hlen,
              getD_lswap l low high high hlowlen hlen,
              if_neg (by omega : ¬ low = high), if_pos rfl, if_pos rfl]
            exact le_of_lt hc
          · rw [if_neg hc]
            exact not_lt.mp hc
        have hun' : ∀ k, k ≠ low → k ≠ high →
            (if l.getD high 0 < l.getD low 0 then lswap l low high
              else l).getD k 0 = l.getD k 0 := by
          intro k hk1 hk2
          by_cases hc : l.getD high 0 < l.getD low 0
          · rw [if_pos hc, getD_lswap l low high k hlowlen hlen,
              if_neg hk2, if_neg hk1]
          · rw [if_neg hc]
        refine ⟨_, _, hstep, hlen', hperm', rfl, hpre', hsuf', ?_, ?_, ?_⟩
        · intro k hk; exact hun' k (by omega) (by omega)
        · intro k hk; exact hun' k (by omega) (by omega)
        · intro hlm hmh
          constructor
          · intro i hi
            by_cases hi1 : i = median
            · exact le_of_eq (by rw [hi1])
            · by_cases hm : median = low
              · exact hpre' i median (by omega) (by omega) (by rw [hlen']; omega)
              · have hm2 : median = high := by omega
                by_cases hi2 : i = low
                · rw [hi2, hm2]; exact horder
                · exact hpre' i median (by omega) (by omega) (by rw [hlen']; omega)
          · intro j hj hjlen
            rw [hlen'] at hjlen
            by_cases hj1 : j = median
            · exact le_of_eq (by rw [hj1])
            · by_cases hm : median = high
              · exact hsuf' median j (by omega) (by omega) (by rw [hlen']; exact hjlen)
              · have hm2 : median = low := by omega
                by_cases hj2 : j = high
                · rw [hj2, hm2]; exact horder
                · exact hsuf' median j (by omega) (by omega) (by rw [hlen']; exact hjlen)
      · have hwin : low + 2 ≤ high := by omega
        obtain ⟨hlen4, hperm4, hpre4, hsuf4, hlow1le, hlowhigh, hun4lo, hun4hi⟩ :=
          med3_spec l low high hwin hlen hpre hsuf
        set p := (med3Setup l low high).getD low 0 with hpdef
        obtain ⟨a5, ll1, hh1, heq5, hlen5, hperm5, hp5, hhh1lo, hhh1hi, hcross,
            hll1lo, hleft, hgap, hright, hpre5, hsuf5, hunlo5, hunhi5⟩ :=
          partLoop_spec low high p (med3Setup l low high).length
            (med3Setup l low high) (low + 1) high
            (le_refl _) (by omega) hwin (by omega) (le_refl _)
            (by rw [hlen4]; exact hlen) hpdef.symm
            (fun k hk1 hk2 => by
              have hk : k = low + 1 := by omega
              rw [hk]; exact hlow1le)
            (fun k hk1 hk2 => by
              have hk : k = high := by omega
              rw [hk]; exact hlowhigh)
            hpre4 hsuf4 (by rw [hlen4]; exact hlen)
        have hstep : mSelect (fuel + 1) l low high median =
            mSelect fuel (lswap a5 low hh1) (if hh1 ≤ median then ll1 else low)
              (if median ≤ hh1 then hh1 - 1 else high) median := by
          simp only [mSelect, if_neg h1, if_neg h2, heq5]
        have hlowlen5 : low < a5.length := by rw [hlen5, hlen4]; omega
        have hhh1len5 : hh1 < a5.length := by rw [hlen5, hlen4]; omega
        have hg6 : ∀ k, (lswap a5 low hh1).getD k 0 =
            if k = hh1 then a5.getD low 0 else if k = low then a5.getD hh1 0
            else a5.getD k 0 := fun k => getD_lswap a5 low hh1 k hlowlen5 hhh1len5
        have hlen6 : (lswap a5 low hh1).length = l.length := by
          rw [lswap_length, hlen5, hlen4]
        have hperm6 : (lswap a5 low hh1).Perm l :=
          ((lswap_perm a5 low hh1 hlowlen5 hhh1len5).trans hperm5).trans hperm4
        have ha6hh1 : (lswap a5 low hh1).getD hh1 0 = p := by
          rw [hg6 hh1, if_pos rfl]; exact hp5
        have hbelow : ∀ k, low ≤ k → k ≤ hh1 → (lswap a5 low hh1).getD k 0 ≤ p := by
          intro k hk1 hk2
          rw [hg6 k]
          by_cases hkh : k = hh1
          · rw [if_pos hkh]; exact le_of_eq hp5
          · rw [if_neg hkh]
            by_cases hkl : k = low
            · rw [if_pos hkl]; exact hleft hh1 (by omega) (le_refl _)
            · rw [if_neg hkl]; exact hleft k (by omega) (by omega)
        have hgap6 : ∀ k, hh1 < k → k < ll1 → (lswap a5 low hh1).getD k 0 = p := by
          intro k hk1 hk2
          rw [hg6 k, if_neg (by omega : ¬ k = hh1), if_neg (by omega : ¬ k = low)]
          exact hgap k hk1 hk2
        have habove : ∀ k, hh1 ≤ k → k < l.length →
            p ≤ (lswap a5 low hh1).getD k 0 := by
          intro k hk1 hklen
          rw [hg6 k]
          by_cases hkh : k = hh1
          · rw [if_pos hkh]; exact le_of_eq hp5.symm
          · rw [if_neg hkh, if_neg (by omega : ¬ k = low)]
            by_cases hkll : k < ll1
            · exact le_of_eq (hgap k (by omega) hkll).symm
            · by_cases hkhigh : k ≤ high
              · exact hright k (by omega) hkhigh
              · have hj := hsuf5 low k (by omega) (by omega)
                  (by rw [hlen5, hlen4]; exact hklen)
                rw [← hp5]
                exact hj
        have hpre6 : prefLE (lswap a5 low hh1) low :=
          prefLE_lswap a5 low low hh1 hpre5 (le_refl _) (by omega) hlowlen5 hhh1len5
        have hsuf6 : sufGE (lswap a5 low hh1) high :=
          sufGE_lswap a5 high low hh1 hsuf5 (by omega) (by omega) hlowlen5 hhh1len5
        have hun6lo : ∀ k, k < low → (lswap a5 low hh1).getD k 0 = l.getD k 0 := by
          intro k hk
          rw [hg6 k, if_neg (by omega : ¬ k = hh1), if_neg (by omega : ¬ k = low),
            hunlo5 k hk, hun4lo k hk]
        have hun6hi : ∀ k, high < k → (lswap a5 low hh1).getD k 0 = l.getD k 0 := by
          intro k hk
          rw [hg6 k, if_neg (by omega : ¬ k = hh1), if_neg (by omega : ¬ k = low),
            hunhi5 k hk, hun4hi k hk]
        have hsufA : sufGE (lswap a5 low hh1) (hh1 - 1) := by
          intro i j hi hj hjlen
          rw [hlen6] at hjlen
          by_cases hil : i < low
          · exact hpre6 i j hil (by omega) (by rw [hlen6]; exact hjlen)
          · exact le_trans (hbelow i (by omega) (by omega)) (habove j (by omega) hjlen)
        have hpreB : prefLE (lswap a5 low hh1) ll1 := by
          intro i j hi hj hjlen
          rw [hlen6] at hjlen
          have hpj : p ≤ (lswap a5 low hh1).getD j 0 := habove j (by omega) hjlen
          by_cases hil : i < low
          · exact hpre6 i j hil (by omega) (by rw [hlen6]; exact hjlen)
          · by_cases hih : i ≤ hh1
            · exact le_trans (hbelow i (by omega) hih) hpj
            · exact le_trans (le_of_eq (hgap6 i (by omega) hi)) hpj
        by_cases hmed1 : median < hh1
        · rw [if_neg (by omega : ¬ hh1 ≤ median),
            if_pos (by omega : median ≤ hh1)] at hstep
          obtain ⟨v, l2, heqr, hlen2, hperm2, hv2, hpre2, hsuf2, hunlo2, hunhi2,
              hpiv2⟩ :=
            ih (lswap a5 low hh1) low (hh1 - 1) median
              (by rw [hlen6]; omega) hpre6 hsufA (by omega)
          refine ⟨v, l2, by rw [hstep]; exact heqr, hlen2.trans hlen6,
            hperm2.trans hperm6, hv2, hpre2, ?_, ?_, ?_, ?_⟩
          · intro i j hi hj hjlen
            by_cases hih : i ≤ hh1 - 1
            · exact hsuf2 i j hih (by omega) hjlen
            · rw [hunhi2 i (by omega), hunhi2 j (by omega)]
              exact hsuf6 i j hi hj (by rw [← hlen2]; exact hjlen)
          · intro k hk
            rw [hunlo2 k hk, hun6lo k hk]
          · intro k hk
            rw [hunhi2 k (by omega), hun6hi k hk]
          · intro hlm hmh
            exact hpiv2 hlm (by omega)
        · by_cases hmed2 : median = hh1
          · rw [if_pos (by omega : hh1 ≤ median),
              if_pos (by omega : median ≤ hh1)] at hstep
            obtain ⟨v, l2, heqr, hlen2, hperm2, hv2, hpre2, hsuf2, hunlo2, hunhi2,
                hpiv2⟩ :=
              ih (lswap a5 low hh1) ll1 (hh1 - 1) median
                (by rw [hlen6]; omega) hpreB hsufA (by omega)
            have hall : ∀ k, l2.getD k 0 = (lswap a5 low hh1).getD k 0 := by
              intro k
              by_cases hk : k < ll1
              · exact hunlo2 k hk
              · exact hunhi2 k (by omega)
            refine ⟨v, l2, by rw [hstep]; exact heqr, hlen2.trans hlen6,
              hperm2.trans hperm6, hv2, ?_, ?_, ?_, ?_, ?_⟩
            · intro i j hi hj hjlen
              rw [hall i, hall j]
              exact hpre6 i j hi hj (by rw [← hlen2]; exact hjlen)
            · intro i j hi hj hjlen
              rw [hall i, hall j]
              exact hsuf6 i j hi hj (by rw [← hlen2]; exact hjlen)
            · intro k hk
              rw [hall k, hun6lo k hk]
            · intro k hk
              rw [hall k, hun6hi k hk]
            · intro hlm hmh
              constructor
              · intro i hi
                rw [hall i, hall median, hmed2, ha6hh1]
                by_cases hil : i < low
                · have hq := hpre6 i hh1 hil (by omega) (by rw [hlen6]; omega)
                  rw [ha6hh1] at hq
                  exact hq
                · exact hbelow i (by omega) (by omega)
              · intro j hj hjlen
                rw [hall j, hall median, hmed2, ha6hh1]
                rw [hlen2, hlen6] at hjlen
                exact habove j (by omega) hjlen
          · rw [if_pos (by omega : hh1 ≤ median),
              if_neg (by omega : ¬ median ≤ hh1)] at hstep
            obtain ⟨v, l2, heqr, hlen2, hperm2, hv2, hpre2, hsuf2, hunlo2, hunhi2,
                hpiv2⟩ :=
              ih (lswap a5 low hh1) ll1 high median
                (by rw [hlen6]; exact hlen) hpreB hsuf6 (by omega)
            refine ⟨v, l2, by rw [hstep]; exact heqr, hlen2.trans hlen6,
              hperm2.trans hperm6, hv2, ?_, hsuf2, ?_, ?_, ?_⟩
            · intro i j hi hj hjlen
              by_cases hjl : j < ll1
              · rw [hunlo2 i (by omega), hunlo2 j hjl]
                exact hpre6 i j hi hj (by rw [← hlen2]; exact hjlen)
              · exact hpre2 i j (by omega) (by omega) hjlen
            · intro k hk
              rw [hunlo2 k (by omega), hun6lo k hk]
            · intro k hk
              rw [hunhi2 k hk, hun6hi k hk]
            · intro hlm hmh
              by_cases hmll : ll1 ≤ median
              · exact hpiv2 hmll hmh
              · have hl2med : l2.getD median 0 = p := by
                  rw [hunlo2 median (by omega)]
                  exact hgap6 median (by omega) (by omega)
                constructor
                · intro i hi
                  rw [hl2med, hunlo2 i (by omega)]
                  by_cases hil : i < low
                  · have hq := hpre6 i median hil (by omega) (by rw [hlen6]; omega)
                    rw [hgap6 median (by omega) (by omega)] at hq
                    exact hq
                  · by_cases hih : i ≤ hh1
                    · exact hbelow i (by omega) hih
                    · exact le_of_eq (hgap6 i (by omega) (by omega))
                · intro j hj hjlen
                  rw [hl2med]
                  by_cases hjl : j < ll1
                  · rw [hunlo2 j hjl]
                    rw [hlen2, hlen6] at hjlen
                    exact habove j (by omega) hjlen
                  · have hq := hpre2 median j (by omega) (by omega) hjlen
                    rw [hl2med] at hq
                    exact hq

/-- **C8.** For every pixel array of at least one element (with the stride
factor fixed at 1, as both callers use it), `medianCalculation` terminates —
the fuel `n + 1` given to the embedded selection loop is never exhausted —
and returns the value that would occupy index `(n - 1) / 2` of the array in
ascending sorted order (the lower median); it operates by partition-based
selection and only permutes the array it was handed, which the callbacks
supply as a disposable copy of the frame. -/
theorem C8_median_selection (l : List ℕ) (h : 1 ≤ l.length) :
    (medianCalculation l).1 =
      (List.insertionSort (fun a b => a ≤ b) l).getD ((l.length - 1) / 2) 0 ∧
    (medianCalculation l).2.Perm l := by
  have hhigh : l.length - 1 < l.length := by omega
  have hpre : prefLE l 0 := fun i j hi _ _ => absurd hi (by omega)
  have hsuf : sufGE l (l.length - 1) := fun i j _ hj hjlen => absurd hjlen (by omega)
  obtain ⟨v, l2, heq, hlen2, hperm2, hv, _, _, _, _, hpiv⟩ :=
    mSelect_spec (l.length + 1) l 0 (l.length - 1) ((l.length - 1) / 2)
      hhigh hpre hsuf (by omega)
  have hmc : medianCalculation l = (v, l2) := by
    simp only [medianCalculation]
    rw [heq]
    rfl
  obtain ⟨hlo, hhi2⟩ := hpiv (by omega) (by omega)
  have hmlen : (l.length - 1) / 2 < l2.length := by rw [hlen2]; omega
  have hsorted := sorted_get_of_pivot l2 ((l.length - 1) / 2) hmlen hlo hhi2
  constructor
  · rw [hmc]
    show v = _
    rw [hv, ← hsorted, insertionSort_perm_congr l2 l hperm2]
  · rw [hmc]
    exact hperm2

/-- Witness for C8 at the concrete frame `[3, 1, 2]`: the selected value is
`2`, the lower median, and the returned array is a permutation of the
input. -/
theorem C8_median_selection_witness :
    1 ≤ ([3, 1, 2] : List ℕ).length ∧
      (medianCalculation ([3, 1, 2] : List ℕ)).1 = 2 ∧
      ((medianCalculation ([3, 1, 2] : List ℕ)).1 =
          (List.insertionSort (fun a b => a ≤ b) ([3, 1, 2] : List ℕ)).getD
            ((([3, 1, 2] : List ℕ).length - 1) / 2) 0 ∧
        (medianCalculation ([3, 1, 2] : List ℕ)).2.Perm [3, 1, 2]) :=
  ⟨by decide, by decide, C8_median_selection [3, 1, 2] (by decide)⟩
